import Mathlib

/-!
Verification of the metric-resolution engine and the parameter-namespace
subsystem of the great_expectations repository.

The development shallowly embeds the Python sources
  great_expectations/expectations/metrics/map_metric_provider.py
  great_expectations/rule_based_profiler/types/parameter_container.py
into Lean.  Python dictionaries are modelled as insertion-ordered
association lists with overwrite-on-rewrite semantics (matching CPython
dict behaviour), Python strings as Lean strings (with character-list
helpers that mirror the Python primitives used by the source), and
Python exceptions as an explicit error type threaded through Except.
-/

namespace GE

/-- Error kinds raised by the embedded code, one constructor per Python
exception type that the sources raise or catch.  Messages are dropped:
the sources only ever branch on the exception type. -/
inductive GEErr where
  | invalidMetricAccessorDomainKwargsKey
  | metricComputationError
  | metricProviderError
  | valueError
  | keyError
  | indexError
  | typeError
  | attributeError
  | parameterAttributeNameParserError
  | profilerExecutionError
deriving DecidableEq, Repr

/-- Values stored in Python dict-shaped data (domain kwargs, parameter
trees).  vDict doubles as the ParameterNode tree node: in the source,
convert_dictionaries_to_parameter_nodes turns every plain dict into a
ParameterNode, so after conversion "is a ParameterNode" and "is a dict"
coincide and a single constructor is faithful. -/
inductive PVal where
  | vNone
  | vBool (b : Bool)
  | vInt (n : Int)
  | vStr (s : String)
  | vList (xs : List PVal)
  | vDict (entries : List (String × PVal))
deriving Repr

/-- Whether a PVal is a dict (equivalently, a ParameterNode). -/
def PVal.isDict : PVal → Bool
  | .vDict _ => true
  | _ => false

/-- Python dict lookup d.get(k) (and d[k] in its success case): first
entry with the given key.  Dicts built by dictSet from source literals
never hold duplicate keys, so this is exact CPython behaviour. -/
def dictGet? {β : Type} : List (String × β) → String → Option β
  | [], _ => none
  | p :: t, k => if p.1 = k then some p.2 else dictGet? t k

/-- Python dict assignment d[k] = v: overwrites in place if the key is
present (keeping its position), otherwise appends, exactly as CPython
insertion-ordered dicts behave. -/
def dictSet {β : Type} : List (String × β) → String → β → List (String × β)
  | [], k, v => [(k, v)]
  | p :: t, k, v => if p.1 = k then (k, v) :: t else p :: dictSet t k v

/-- Python s.endswith(t), computed on the character lists. -/
def listEndsWith (s t : List Char) : Bool :=
  s.drop (s.length - t.length) == t

/-- Python s.endswith(t) for strings. -/
def strEndsWith (s t : String) : Bool :=
  listEndsWith s.data t.data

/-- Python s[:-len(t)] for a nonempty t (suffix stripping as done by the
dependency resolver). -/
def strDropSuffix (s t : String) : String :=
  ⟨s.data.take (s.data.length - t.data.length)⟩

/-!
## Metric dependency resolver

Embeds MapMetricProvider._get_evaluation_dependencies and the overrides
in ColumnMapMetricProvider, ColumnPairMapMetricProvider and
MulticolumnMapMetricProvider (map_metric_provider.py).  The process-wide
metric registry is abstracted by a boolean capability predicate
(registered name = true iff get_metric_provider(name, engine) succeeds):
the source's try/except ge_exceptions.MetricProviderError around the
lookup is exactly a membership test on the registry for the given
execution engine.
-/

/-- great_expectations.validator.metric_configuration.MetricConfiguration
as used by the resolver: a metric name plus its domain and value kwargs.
A Python value_kwargs of None (used for the table.columns and
table.row_count dependencies) is modelled as the empty list, which the
resolver never distinguishes from an empty dict. -/
structure MetricConfiguration where
  metricName : String
  domainKwargs : List (String × PVal)
  valueKwargs : List (String × PVal)

/-- Source lines 3240-3244: the parent metric's value kwargs with the
"result_format" key removed (dict comprehension preserves order). -/
def baseMetricValueKwargs (m : MetricConfiguration) : List (String × PVal) :=
  m.valueKwargs.filter (fun p => p.1 ≠ "result_format")

/-- The five unexpected-detail suffixes of the third rule, in source
order (lines 3272-3278). -/
def detailSuffixes : List String :=
  [".unexpected_values", ".unexpected_value_counts", ".unexpected_index_list",
   ".unexpected_rows", ".filtered_row_count"]

/-- MapMetricProvider._get_evaluation_dependencies (lines 3222-3294),
with the registry lookup abstracted as the predicate registered. -/
def mapMetricGetEvaluationDependencies (registered : String → Bool)
    (metric : MetricConfiguration) : List (String × MetricConfiguration) :=
  let metricName := metric.metricName
  let baseKw := baseMetricValueKwargs metric
  let deps : List (String × MetricConfiguration) := []
  let deps :=
    if strEndsWith metricName ".unexpected_count" then
      if registered (metricName ++ ".aggregate_fn") then
        dictSet deps "metric_partial_fn"
          ⟨metricName ++ ".aggregate_fn", metric.domainKwargs, baseKw⟩
      else
        dictSet deps "unexpected_condition"
          ⟨strDropSuffix metricName ".unexpected_count" ++ ".condition",
           metric.domainKwargs, baseKw⟩
    else deps
  let deps :=
    if strEndsWith metricName ".unexpected_count.aggregate_fn" then
      dictSet deps "unexpected_condition"
        ⟨strDropSuffix metricName ".unexpected_count.aggregate_fn" ++ ".condition",
         metric.domainKwargs, baseKw⟩
    else deps
  let deps := detailSuffixes.foldl (fun deps sfx =>
      if strEndsWith metricName sfx then
        dictSet deps "unexpected_condition"
          ⟨strDropSuffix metricName sfx ++ ".condition",
           metric.domainKwargs, baseKw⟩
      else deps) deps
  if registered (metricName ++ ".map") then
    dictSet deps "metric_map_fn"
      ⟨metricName ++ ".map", metric.domainKwargs, metric.valueKwargs⟩
  else deps

/-- Shared shape of the three column-domain overrides: add the three
table-level dependencies keyed by the accessor-stripped domain kwargs
(what each override does after calling super()). -/
def addTableDependencies (deps : List (String × MetricConfiguration))
    (tableDomainKwargs : List (String × PVal)) :
    List (String × MetricConfiguration) :=
  dictSet (dictSet (dictSet deps
    "table.column_types"
      ⟨"table.column_types", tableDomainKwargs, [("include_nested", .vBool true)]⟩)
    "table.columns" ⟨"table.columns", tableDomainKwargs, []⟩)
    "table.row_count" ⟨"table.row_count", tableDomainKwargs, []⟩

/-- ColumnMapMetricProvider._get_evaluation_dependencies
(lines 3343-3387): accessor key "column" is stripped. -/
def columnMapGetEvaluationDependencies (registered : String → Bool)
    (metric : MetricConfiguration) : List (String × MetricConfiguration) :=
  addTableDependencies (mapMetricGetEvaluationDependencies registered metric)
    (metric.domainKwargs.filter (fun p => p.1 ≠ "column"))

/-- ColumnPairMapMetricProvider._get_evaluation_dependencies
(lines 3412-3458): accessor keys "column_A", "column_B", "ignore_row_if"
are stripped. -/
def columnPairMapGetEvaluationDependencies (registered : String → Bool)
    (metric : MetricConfiguration) : List (String × MetricConfiguration) :=
  addTableDependencies (mapMetricGetEvaluationDependencies registered metric)
    (metric.domainKwargs.filter
      (fun p => ¬ (p.1 ∈ ["column_A", "column_B", "ignore_row_if"])))

/-- MulticolumnMapMetricProvider._get_evaluation_dependencies
(lines 3481-3527): accessor keys "column_list", "ignore_row_if" are
stripped. -/
def multicolumnMapGetEvaluationDependencies (registered : String → Bool)
    (metric : MetricConfiguration) : List (String × MetricConfiguration) :=
  addTableDependencies (mapMetricGetEvaluationDependencies registered metric)
    (metric.domainKwargs.filter
      (fun p => ¬ (p.1 ∈ ["column_list", "ignore_row_if"])))

/-!
## Metric provider dispatch: pandas and SQLAlchemy adapters

The execution-engine collaborators (get_compute_domain /
get_domain_records) are abstracted by passing their result directly:
for the pandas adapters a column of the resolved dataframe is a list of
optional values (none = pandas null), so that df[df[col].notnull()]
followed by df[col] is the filter of the column on isSome.  The embedded
providers only ever read the accessor column of the dataframe, so that
column stands for the frame.
-/

/-- np.count_nonzero applied to a boolean mask
(_pandas_map_condition_unexpected_count, line 1597). -/
def npCountNonzero (mask : List Bool) : Nat :=
  (mask.filter (fun b => b)).length

/-- The (value, compute_domain_kwargs, accessor_domain_kwargs) triple
stored under metrics["unexpected_condition"] by a resolved pandas
condition metric.  The mask is positionally aligned with the
(null-filtered, when filter_column_isnull was set) dataframe. -/
structure PandasConditionMetric where
  mask : List Bool
  computeDomainKwargs : List (String × PVal)
  accessorColumn : Option String

/-- _pandas_map_condition_unexpected_count (lines 1579-1597): counts the
true entries of the stored unexpected-condition mask.  The metric value
kwargs are part of the provider signature but never read. -/
def pandasMapConditionUnexpectedCount (cond : PandasConditionMetric)
    (_metricValueKwargs : List (String × PVal)) : Nat :=
  npCountNonzero cond.mask

/-- The result_format dict found in metric_value_kwargs["result_format"]
("result_format" selects the mode, "partial_unexpected_count" the detail
cap, default 20). -/
structure ResultFormat where
  resultFormat : String
  partialUnexpectedCount : Nat

/-- pandas boolean-mask indexing series[mask] for a positionally aligned
mask: keeps entries at true positions, preserving original row order. -/
def applyMask {α : Type} (xs : List α) (mask : List Bool) : List α :=
  ((xs.zip mask).filter (fun p => p.2)).map Prod.fst

/-- _pandas_column_map_condition_values (lines 1600-1644).  Arguments:
the stored unexpected-condition metric, the resolved table.columns
metric, the filter_column_isnull flag (kwargs override or class
attribute), the accessor column of the dataframe returned by
get_domain_records(compute_domain_kwargs), and the result_format value
kwarg.  Returns the unexpected column values, all of them under
"COMPLETE" and the first partial_unexpected_count of them otherwise. -/
def pandasColumnMapConditionValues (cond : PandasConditionMetric)
    (tableColumns : List String) (filterColumnIsnull : Bool)
    (dfColumn : List (Option PVal)) (resultFormat : ResultFormat) :
    Except GEErr (List (Option PVal)) :=
  match cond.accessorColumn with
  | none => .error .valueError
  | some columnName =>
    if !(tableColumns.contains columnName) then
      .error .invalidMetricAccessorDomainKwargsKey
    else
      let df := if filterColumnIsnull then dfColumn.filter (fun v => v.isSome)
                else dfColumn
      let domainValues := applyMask df cond.mask
      if resultFormat.resultFormat = "COMPLETE" then .ok domainValues
      else .ok (domainValues.take resultFormat.partialUnexpectedCount)

/-- column_function_partial for PandasExecutionEngine: the inner_func of
lines 86-125.  metricFn is the decorated business-logic function (it
receives the engine-extracted column series); the adapter checks the
accessor column against the resolved table.columns metric, optionally
drops null rows first, and returns the business function's value. -/
def columnFunctionPartialPandas (filterColumnIsnull : Bool)
    (metricFn : List (Option PVal) → List PVal)
    (tableColumns : List String) (columnName : String)
    (dfColumn : List (Option PVal)) : Except GEErr (List PVal) :=
  if !(tableColumns.contains columnName) then
    .error .invalidMetricAccessorDomainKwargsKey
  else
    let df := if filterColumnIsnull then dfColumn.filter (fun v => v.isSome)
              else dfColumn
    .ok (metricFn df)

/-- column_condition_partial for PandasExecutionEngine: the inner_func of
lines 341-384.  Same shaping as the function partial (filter default is
true for condition partials), but the business function returns the
"meets expectation" boolean series, which the adapter negates (~) before
storing it as the unexpected condition. -/
def columnConditionPartialPandas (filterColumnIsnull : Bool)
    (metricFn : List (Option PVal) → List Bool)
    (tableColumns : List String) (columnName : String)
    (dfColumn : List (Option PVal)) : Except GEErr (List Bool) :=
  if !(tableColumns.contains columnName) then
    .error .invalidMetricAccessorDomainKwargsKey
  else
    let df := if filterColumnIsnull then dfColumn.filter (fun v => v.isSome)
              else dfColumn
    .ok ((metricFn df).map (fun b => !b))

/-- SQLAlchemy boolean expressions as built by the sqlalchemy condition
adapter: sa.column, sa.not_, sa.and_, sa.or_ and column.is_(None). -/
inductive SqlExpr where
  | column (name : String)
  | isNull (e : SqlExpr)
  | sNot (e : SqlExpr)
  | sAnd (a b : SqlExpr)
  | sOr (a b : SqlExpr)

/-- Boolean evaluation of a SqlExpr modulo an arbitrary valuation of its
non-logical atoms (used to compare predicates up to the semantics of
and/not). -/
def SqlExpr.evalWith (nu : SqlExpr → Bool) : SqlExpr → Bool
  | .sNot e => !(e.evalWith nu)
  | .sAnd a b => a.evalWith nu && b.evalWith nu
  | .sOr a b => a.evalWith nu || b.evalWith nu
  | e => nu e

/-- column_condition_partial for SqlAlchemyExecutionEngine: the
inner_func of lines 419-475.  metricFn builds the backend-native "meets
expectation" predicate from sa.column(column_name); with
filter_column_isnull the adapter stores
sa.and_(sa.not_(column.is_(None)), sa.not_(expected_condition)) as one
composed native predicate, otherwise sa.not_(expected_condition). -/
def columnConditionPartialSqlalchemy (filterColumnIsnull : Bool)
    (metricFn : SqlExpr → SqlExpr)
    (tableColumns : List String) (columnName : String) :
    Except GEErr SqlExpr :=
  if !(tableColumns.contains columnName) then
    .error .invalidMetricAccessorDomainKwargsKey
  else
    let expectedCondition := metricFn (SqlExpr.column columnName)
    if filterColumnIsnull then
      .ok (.sAnd (.sNot (.isNull (.column columnName))) (.sNot expectedCondition))
    else
      .ok (.sNot expectedCondition)

/-- The value-counting core of _pandas_column_map_condition_value_counts
(lines 1969-1982): the outcome of the straightforward
domain_values[mask].value_counts() call and of the .apply(tuple) fallback
are passed in as Option results (none = the call raised ValueError; some
vc = the call produced a pandas Series holding the listed
(distinct value, count) pairs).  Mirrors the try/except ValueError chain
and the final "if not value_counts:" check with Python truthiness taken
at pandas semantics: when value_counts is still None the check is true
and MetricComputationError is raised; when value_counts is a Series
(either attempt succeeded, whether empty or not), taking the truth value
of the Series itself raises ValueError ("The truth value of a Series is
ambiguous") -- the check sits outside both try blocks, so that ValueError
escapes uncaught, the counts are never returned, and the result_format
lines below the check are unreachable.  The second component reports
whether the tuple-coercion fallback was attempted. -/
def pandasValueCountsWithFallback (firstAttempt : Option (List (PVal × Nat)))
    (fallbackAttempt : Option (List (PVal × Nat))) :
    Except GEErr (List (PVal × Nat)) × Bool :=
  match firstAttempt with
  | some _ => (.error .valueError, false)
  | none =>
    match fallbackAttempt with
    | some _ => (.error .valueError, true)
    | none => (.error .metricComputationError, true)

/-!
## Parameter namespace (parameter_container.py)

ParameterNode trees are PVal values whose vDict constructor plays the
role of ParameterNode (see PVal).  A ParameterContainer is its
parameter_nodes dict; a parameter_nodes of None is modelled as the empty
dict, which is faithful because build_parameter_container always inserts
a root node under the root it creates, so a present parameter_nodes dict
is never empty in the source.
-/

/-- Python name[1:] etc. on character lists: split on the "." separator,
matching str.split("."), including "" segments for consecutive dots. -/
def splitCharsOnDot : List Char → List (List Char)
  | [] => [[]]
  | c :: rest =>
    if c = '.' then [] :: splitCharsOnDot rest
    else match splitCharsOnDot rest with
      | h :: t => (c :: h) :: t
      | [] => [[c]]

/-- str.split(".") for strings. -/
def pySplitDot (s : String) : List String :=
  (splitCharsOnDot s.data).map (fun l => ⟨l⟩)

/-- str.startswith(t). -/
def pyStartsWith (s t : String) : Bool :=
  t.data.isPrefixOf s.data

/-- "." .join for the enumeration of fully-qualified names. -/
def joinDots : List String → String
  | [] => ""
  | [s] => s
  | s :: rest => s ++ "." ++ joinDots rest

/-- The single-quote character (written by code point to keep source
clean of quote literals). -/
def squote : Char := Char.ofNat 39

/-- A bracket accessor parsed from a path segment: a quoted string key or
an integer index (pyparsing grammar attribute_naming_pattern). -/
inductive Accessor where
  | strKey (k : String)
  | intKey (n : Int)
deriving Repr, DecidableEq

/-- Characters allowed in the body of pyparsing
Word(alphas, alphanums + "_.") . -/
def identChar (c : Char) : Bool :=
  c.isAlphanum || c = '_' || c = '.'

/-- pyparsing Word(alphas, alphanums + "_."): a maximal run starting with
a letter; none if the input does not start with a letter. -/
def parseWordAlphas (cs : List Char) : Option (List Char × List Char) :=
  match cs with
  | c :: rest =>
    if c.isAlpha then some (c :: rest.takeWhile identChar, rest.dropWhile identChar)
    else none
  | [] => none

/-- Digits of an int literal to its value. -/
def digitsToNat (ds : List Char) : Nat :=
  ds.foldl (fun acc c => acc * 10 + (c.toNat - 48)) 0

/-- Python int(token) for a token matched by Word(nums + "-"): optional
single leading minus then one or more digits; anything else raises
ValueError (propagated by the parse action). -/
def parseIntToken (run : List Char) : Option Int :=
  match run with
  | '-' :: ds =>
    if !ds.isEmpty && ds.all (fun c => c.isDigit) then some (-(digitsToNat ds : Int))
    else none
  | ds =>
    if !ds.isEmpty && ds.all (fun c => c.isDigit) then some ((digitsToNat ds : Int))
    else none

/-- The ZeroOrMore bracket-group loop of attribute_naming_pattern.  A
group is ["key"], [&#39;key&#39;] (matching quotes) or [int].  When no
alternative matches, the loop stops and the remaining characters are
ignored (parseString is called without parseAll).  A matched int group
whose token is not a valid int literal raises ValueError through the
parse action.  Fuel is the remaining length; each group consumes at
least three characters. -/
def parseAccessors : Nat → List Char → Except GEErr (List Accessor)
  | 0, _ => .ok []
  | _ + 1, [] => .ok []
  | fuel + 1, c0 :: cs0 =>
    if c0 = '[' then
      match cs0 with
      | [] => .ok []
      | c :: rest =>
        if c = '"' || c = squote then
          match parseWordAlphas rest with
          | some (key, rest') =>
            (match rest' with
             | c' :: rest'' =>
               if c' = c then
                 match rest'' with
                 | ']' :: rest''' =>
                   (parseAccessors fuel rest''').map (fun accs => .strKey ⟨key⟩ :: accs)
                 | _ => .ok []
               else .ok []
             | [] => .ok [])
          | none => .ok []
        else
          let run := (c :: rest).takeWhile (fun d => d.isDigit || d = '-')
          let rest' := (c :: rest).dropWhile (fun d => d.isDigit || d = '-')
          if run.isEmpty then .ok []
          else
            match rest' with
            | ']' :: rest'' =>
              (match parseIntToken run with
               | some n => (parseAccessors fuel rest'').map (fun accs => .intKey n :: accs)
               | none => .error .valueError)
            | _ => .ok []
    else .ok []

/-- _parse_attribute_naming_pattern (lines 69-85): parse one dot-free
path segment into its leading identifier and bracket accessors; a
ParseException (input not starting with a Word(alphas, ...)) becomes
ParameterAttributeNameParserError. -/
def parseAttributeNamingPattern (s : String) :
    Except GEErr (String × List Accessor) :=
  match parseWordAlphas s.data with
  | none => .error .parameterAttributeNameParserError
  | some (ident, rest) =>
    (parseAccessors rest.length rest).map (fun accs => (⟨ident⟩, accs))

/-- A bare-identifier path segment: nonempty, leading letter, body of
letters, digits and underscores (no dots, no bracket accessors).  Such
segments are parsed by attribute_naming_pattern as a single identifier
token with no accessors. -/
def isBareIdent (s : String) : Bool :=
  match s.data with
  | [] => false
  | c :: cs => c.isAlpha && cs.all (fun d => d.isAlphanum || d = '_')

/-- Python list indexing with negative-index support: xs[n]. -/
def pyListGet (xs : List PVal) (n : Int) : Except GEErr PVal :=
  if 0 ≤ n then
    match xs.get? n.toNat with
    | some v => .ok v
    | none => .error .indexError
  else
    let m : Int := (xs.length : Int) + n
    if 0 ≤ m then
      match xs.get? m.toNat with
      | some v => .ok v
      | none => .error .indexError
    else .error .indexError

/-- Python string indexing s[n] (yields a one-character string). -/
def pyStrGet (s : String) (n : Int) : Except GEErr PVal :=
  if 0 ≤ n then
    match s.data.get? n.toNat with
    | some c => .ok (.vStr ⟨[c]⟩)
    | none => .error .indexError
  else
    let m : Int := (s.data.length : Int) + n
    if 0 ≤ m then
      match s.data.get? m.toNat with
      | some c => .ok (.vStr ⟨[c]⟩)
      | none => .error .indexError
    else .error .indexError

/-- Python v[k] for a string key: ParameterNode/dict lookup (KeyError
when absent), TypeError on non-subscriptable-by-string values. -/
def pvalGetStr (v : PVal) (k : String) : Except GEErr PVal :=
  match v with
  | .vDict entries =>
    (match dictGet? entries k with
     | some x => .ok x
     | none => .error .keyError)
  | _ => .error .typeError

/-- Python v[a] for a parsed bracket accessor. -/
def pvalGetAccessor (v : PVal) (a : Accessor) : Except GEErr PVal :=
  match a with
  | .strKey k => pvalGetStr v k
  | .intKey n =>
    match v with
    | .vList xs => pyListGet xs n
    | .vStr s => pyStrGet s n
    | .vDict _ => .error .keyError
    | _ => .error .typeError

/-- Successive application of the bracket accessors of one segment. -/
def applyAccessors (v : PVal) : List Accessor → Except GEErr PVal
  | [] => .ok v
  | a :: rest =>
    match pvalGetAccessor v a with
    | .ok v' => applyAccessors v' rest
    | .error e => .error e

/-- Python (ref in node): dict key membership, list value membership for
a string, substring test on strings, TypeError otherwise. -/
def pvalContains (v : PVal) (k : String) : Except GEErr Bool :=
  match v with
  | .vDict entries => .ok ((dictGet? entries k).isSome)
  | .vList xs =>
    .ok (xs.any (fun x => match x with | .vStr s => s = k | _ => false))
  | .vStr s =>
    .ok ((List.range (s.data.length + 1)).any
      (fun i => (s.data.drop i).take k.data.length == k.data))
  | _ => .error .typeError

/-- The per-part loop of _get_parameter_value_from_parameter_container
(lines 443-459): walk all parts (the root part included), parsing each
and applying identifier lookup then bracket accessors; returns the final
value together with the parent node and identifier reference of the last
part (used by the post-loop membership check). -/
def resolveParts (rv : PVal) : List String → Except GEErr (PVal × PVal × String)
  | [] => .error .keyError
  | [part] => do
    let pr ← parseAttributeNamingPattern part
    let v1 ← pvalGetStr rv pr.1
    let v2 ← applyAccessors v1 pr.2
    .ok (v2, rv, pr.1)
  | part :: rest => do
    let pr ← parseAttributeNamingPattern part
    let v1 ← pvalGetStr rv pr.1
    let v2 ← applyAccessors v1 pr.2
    resolveParts v2 rest

/-- _get_parameter_value_from_parameter_container (lines 420-470): root
node lookup (absent root resolves to None), the resolution loop inside
try, except KeyError re-raised as KeyError, and the final membership
check of the last reference in its parent node. -/
def getParameterValueFromParameterContainer (parts : List String)
    (container : List (String × PVal)) : Except GEErr (Option PVal) :=
  match parts with
  | [] => .error .indexError
  | root :: _ =>
    match dictGet? container root with
    | none => .ok none
    | some rootNode =>
      match resolveParts rootNode parts with
      | .error .keyError => .error .keyError
      | .error e => .error e
      | .ok (rv, parent, ref) =>
        match pvalContains parent ref with
        | .error e => .error e
        | .ok true => .ok (some rv)
        | .ok false => .error .keyError

/-- _build_parameter_node_tree_for_one_parameter (lines 335-362):
recursively create missing intermediate ParameterNode children and store
the value under the (unparsed) last name part.  Indexing an empty part
list is the IndexError of parameter_name_as_list[0]; descending into an
existing non-node child is the TypeError of (part in leaf). -/
def buildParameterNodeTree (node : PVal) : List String → PVal → Except GEErr PVal
  | [], _ => .error .indexError
  | [part], v =>
    (match node with
     | .vDict entries => .ok (.vDict (dictSet entries part v))
     | _ => .error .typeError)
  | part :: rest, v =>
    match node with
    | .vDict entries =>
      let child := (dictGet? entries part).getD (.vDict [])
      (buildParameterNodeTree child rest v).map
        (fun child' => .vDict (dictSet entries part child'))
    | _ => .error .typeError

/-- One iteration of the build_parameter_container loop (lines 294-332):
validate the sigil, split the name on ".", fetch or create the root
node, and build the tree for this fully-qualified name. -/
def buildParameterContainerOne (container : List (String × PVal))
    (name : String) (v : PVal) : Except GEErr (List (String × PVal)) :=
  if !(pyStartsWith name "$") then .error .profilerExecutionError
  else
    let parts := pySplitDot ⟨name.data.drop 1⟩
    match parts with
    | [] => .error .indexError
    | root :: _ =>
      let node := (dictGet? container root).getD (.vDict [])
      (buildParameterNodeTree node parts v).map
        (fun node' => dictSet container root node')

/-- build_parameter_container over the supplied name/value pairs. -/
def buildParameterContainer (container : List (String × PVal)) :
    List (String × PVal) → Except GEErr (List (String × PVal))
  | [] => .ok container
  | (name, v) :: rest =>
    match buildParameterContainerOne container name v with
    | .ok c' => buildParameterContainer c' rest
    | .error e => .error e

/-- build_parameter_container_for_variables (lines 268-291): prefix each
variables config key with "$variables." and build a fresh container. -/
def buildParameterContainerForVariables
    (variablesConfigs : List (String × PVal)) :
    Except GEErr (List (String × PVal)) :=
  buildParameterContainer []
    (variablesConfigs.map (fun p => ("$variables." ++ p.1, p.2)))

/-- get_parameter_value_by_fully_qualified_parameter_name
(lines 365-417).  domain is the optional active Domain, reduced to its
(id, domain_kwargs); variables the optional variables container;
parameters the per-domain-id container dict. -/
def getParameterValueByFullyQualifiedParameterName (name : String)
    (domain : Option (String × List (String × PVal)))
    (variablesArg : Option (List (String × PVal)))
    (parameters : List (String × List (String × PVal))) :
    Except GEErr (Option PVal) :=
  if !(pyStartsWith name "$") then .error .profilerExecutionError
  else if name = "$domain.domain_kwargs" then
    (match domain with
     | some d => .ok (some (.vDict d.2))
     | none => .ok none)
  else if pyStartsWith name "$domain.domain_kwargs" then
    (match domain with
     | some d =>
       if d.2.isEmpty then .ok none
       else .ok (dictGet? d.2 ⟨name.data.drop ("$domain.domain_kwargs.".data.length)⟩)
     | none => .ok none)
  else
    let containerE : Except GEErr (List (String × PVal)) :=
      if pyStartsWith name "$variables" then
        match variablesArg with
        | some c => .ok c
        | none => .error .attributeError
      else
        match domain with
        | none => .error .attributeError
        | some d =>
          match dictGet? parameters d.1 with
          | some c => .ok c
          | none => .error .keyError
    match containerE with
    | .error e => .error e
    | .ok container =>
      let parts := pySplitDot ⟨name.data.drop 1⟩
      if parts.length = 0 then .ok none
      else getParameterValueFromParameterContainer parts container

/-!
### Enumeration of fully-qualified parameter names
-/

/-- The reserved terminal literals (a Python set in the source; its
iteration order is abstracted by the reservedOrder parameter of the
functions below, quantified over permutations in the theorems). -/
def RESERVED_TERMINAL_LITERALS : List String :=
  ["value", "attributed_value", "details"]

/-- Python list.index(x) (first occurrence), None when absent (the
source catches the ValueError). -/
def pyListIndex (x : String) : List String → Option Nat
  | [] => none
  | y :: ys => if y = x then some 0 else (pyListIndex x ys).map (fun i => i + 1)

/-- The "for key in RESERVED_TERMINAL_LITERALS: try idx = list.index(key)"
loop: first key in set-iteration order that occurs in the parts. -/
def findFirstReservedIdx : List String → List String → Option Nat
  | [], _ => none
  | k :: ks, parts =>
    match pyListIndex k parts with
    | some i => some i
    | none => findFirstReservedIdx ks parts

/-- _get_parameter_name_parts_up_to_including_reserved_literal
(lines 613-637): the variables root short-circuits to the doubled
marker; otherwise, when some reserved literal occurs, the parts are cut
at the index found for the first reserved key (in set-iteration order)
present; note the slice parts[:idx] excludes the literal itself. -/
def partsUpToIncludingReservedLiteral (reservedOrder : List String)
    (parts : List String) : List String :=
  match parts with
  | [] => []
  | h :: _ =>
    if h = "variables" then ["variables", "variables"]
    else if parts.all (fun p => !(RESERVED_TERMINAL_LITERALS.contains p)) then parts
    else
      match findFirstReservedIdx reservedOrder parts with
      | some idx => parts.take idx
      | none => parts

/-- _get_parameter_node_attribute_names_as_lists (lines 581-610): walk a
ParameterNode, collecting the key path of every non-node leaf, in
iteration order. -/
def collectEntriesNames (pre : List String) :
    List (String × PVal) → List (List String)
  | [] => []
  | (k, .vDict es) :: rest =>
    collectEntriesNames (pre ++ [k]) es ++ collectEntriesNames pre rest
  | (k, _) :: rest => (pre ++ [k]) :: collectEntriesNames pre rest

/-- The collector applied to a node (non-dict nodes contribute nothing,
mirroring the items() iteration which only a ParameterNode supports). -/
def collectNodeNames (pre : List String) (node : PVal) : List (List String) :=
  match node with
  | .vDict es => collectEntriesNames pre es
  | _ => []

/-- Deduplication standing for the Python set accumulation of names (the
set's order does not escape: the caller sorts). -/
def dedupAux (seen : List String) : List String → List String
  | [] => []
  | s :: rest =>
    if seen.contains s then dedupAux seen rest
    else s :: dedupAux (s :: seen) rest

def dedupStrings (l : List String) : List String := dedupAux [] l

/-- _get_parameter_node_attribute_names (lines 546-578): collect the
leaf paths, truncate each at the reserved literal, drop the root part
and join with dots behind the sigil, deduplicate. -/
def getParameterNodeAttributeNames (reservedOrder : List String)
    (parameterNameRoot : String) (parameterNode : PVal) : List String :=
  dedupStrings ((collectNodeNames [parameterNameRoot] parameterNode).map
    (fun l =>
      "$" ++ joinDots ((partsUpToIncludingReservedLiteral reservedOrder l).drop 1)))

/-- Python codepoint-lexicographic string comparison (string ≤). -/
def charListLe : List Char → List Char → Bool
  | [], _ => true
  | _ :: _, [] => false
  | a :: as, b :: bs =>
    if a.val < b.val then true
    else if b.val < a.val then false
    else charListLe as bs

/-- Insertion sort descending, modelling sorted(names, reverse=True). -/
def insertDescending (x : String) : List String → List String
  | [] => [x]
  | y :: ys =>
    if charListLe x.data y.data then y :: insertDescending x ys
    else x :: y :: ys

def sortedDescending : List String → List String
  | [] => []
  | x :: xs => insertDescending x (sortedDescending xs)

/-- get_fully_qualified_parameter_names (lines 501-543): the variables
namespace contributes through the root node stored under "variables";
each root of the domain's parameter container contributes with the root
label "parameter"; the union is sorted descending. -/
def getFullyQualifiedParameterNames (reservedOrder : List String)
    (domain : Option (String × List (String × PVal)))
    (variablesArg : Option (List (String × PVal)))
    (parameters : Option (List (String × List (String × PVal)))) :
    Except GEErr (List String) := do
  let fromVars ←
    match variablesArg with
    | none => pure []
    | some c =>
      if c.isEmpty then pure []
      else
        match dictGet? c "variables" with
        | some node =>
          pure (getParameterNodeAttributeNames reservedOrder "variables" node)
        | none => Except.error GEErr.keyError
  let fromParams ←
    match parameters with
    | none => pure []
    | some ps =>
      match domain with
      | none => Except.error GEErr.attributeError
      | some d =>
        match dictGet? ps d.1 with
        | none => Except.error GEErr.keyError
        | some c =>
          if c.isEmpty then pure []
          else
            pure (List.flatten (c.map (fun p =>
              getParameterNodeAttributeNames reservedOrder "parameter" p.2)))
  pure (sortedDescending (fromVars ++ fromParams))

/-!
## Lemmas: Python dict and string helpers
-/

theorem dictGet?_dictSet_self {β : Type} (d : List (String × β)) (k : String) (v : β) :
    dictGet? (dictSet d k v) k = some v := by
  induction d with
  | nil => simp [dictSet, dictGet?]
  | cons p t ih =>
    by_cases hp : p.1 = k
    · simp [dictSet, dictGet?, hp]
    · simp [dictSet, dictGet?, hp, ih]

theorem dictGet?_dictSet_ne {β : Type} (d : List (String × β)) (k k' : String) (v : β)
    (hne : k' ≠ k) : dictGet? (dictSet d k v) k' = dictGet? d k' := by
  induction d with
  | nil => simp [dictSet, dictGet?, Ne.symm hne]
  | cons p t ih =>
    by_cases hp : p.1 = k
    · rw [show dictSet (p :: t) k v = (k, v) :: t by simp [dictSet, hp]]
      show (if k = k' then some v else dictGet? t k') = dictGet? (p :: t) k'
      rw [if_neg (Ne.symm hne)]
      show dictGet? t k' = (if p.1 = k' then some p.2 else dictGet? t k')
      rw [if_neg (by rw [hp]; exact Ne.symm hne)]
    · rw [show dictSet (p :: t) k v = p :: dictSet t k v by simp [dictSet, hp]]
      show (if p.1 = k' then some p.2 else dictGet? (dictSet t k v) k')
          = (if p.1 = k' then some p.2 else dictGet? t k')
      rw [ih]

theorem listEndsWith_iff (s t : List Char) :
    listEndsWith s t = true ↔ s.drop (s.length - t.length) = t := by
  unfold listEndsWith
  exact beq_iff_eq ..

theorem listEndsWith_append (s t : List Char) (h : listEndsWith s t = true) :
    s = s.take (s.length - t.length) ++ t := by
  rw [listEndsWith_iff] at h
  conv_lhs => rw [← List.take_append_drop (s.length - t.length) s]
  rw [h]

theorem length_le_of_listEndsWith (s t : List Char) (h : listEndsWith s t = true) :
    t.length ≤ s.length := by
  rw [listEndsWith_iff] at h
  have := congrArg List.length h
  simp [List.length_drop] at this
  omega

/-- If two lists are both suffixes (via listEndsWith) of the same list and
the first is no longer than the second, the first is a suffix of the
second.  Used to derive the mutual exclusion of the metric-name suffix
rules. -/
theorem listEndsWith_trans_of_le (s t₁ t₂ : List Char)
    (h₁ : listEndsWith s t₁ = true) (h₂ : listEndsWith s t₂ = true)
    (hle : t₁.length ≤ t₂.length) : listEndsWith t₂ t₁ = true := by
  have e₂ := listEndsWith_append s t₂ h₂
  rw [listEndsWith_iff] at h₁ ⊢
  have key : s.drop (s.length - t₁.length) = t₂.drop (t₂.length - t₁.length) := by
    conv_lhs => rw [e₂]
    have harith : (s.take (s.length - t₂.length) ++ t₂).length - t₁.length
        = (s.take (s.length - t₂.length)).length + (t₂.length - t₁.length) := by
      rw [List.length_append]; omega
    rw [harith, List.drop_append]
  rw [← key, h₁]

theorem strEndsWith_excl (s : String) (t₁ t₂ : String)
    (h₁ : strEndsWith s t₁ = true)
    (hincomp : (if t₁.data.length ≤ t₂.data.length
        then listEndsWith t₂.data t₁.data
        else listEndsWith t₁.data t₂.data) = false) :
    strEndsWith s t₂ = false := by
  unfold strEndsWith at *
  by_contra hc
  have h₂ : listEndsWith s.data t₂.data = true := by
    cases h : listEndsWith s.data t₂.data
    · exact absurd h hc
    · rfl
  split at hincomp
  · rename_i hle
    rw [listEndsWith_trans_of_le s.data t₁.data t₂.data h₁ h₂ hle] at hincomp
    exact Bool.true_eq_false.mp hincomp
  · rename_i hgt
    rw [listEndsWith_trans_of_le s.data t₂.data t₁.data h₂ h₁ (by omega)] at hincomp
    exact Bool.true_eq_false.mp hincomp

theorem strDropSuffix_append (s t : String) (h : strEndsWith s t = true) :
    (strDropSuffix s t) ++ t = s := by
  unfold strEndsWith at h
  unfold strDropSuffix
  have := listEndsWith_append s.data t.data h
  cases s with
  | mk sd =>
    cases t with
    | mk td =>
      show String.mk (List.take _ sd ++ td) = String.mk sd
      simp only at this ⊢
      rw [← this]

/-- Applying a positionally aligned boolean mask yields exactly as many
entries as the mask has true positions. -/
theorem applyMask_length {α : Type} (xs : List α) (mask : List Bool)
    (h : mask.length = xs.length) :
    (applyMask xs mask).length = npCountNonzero mask := by
  induction xs generalizing mask with
  | nil =>
    cases mask with
    | nil => rfl
    | cons b bs => simp at h
  | cons x xs ih =>
    cases mask with
    | nil => simp at h
    | cons b bs =>
      simp only [List.length_cons, Nat.succ.injEq] at h
      cases b with
      | true =>
        simp only [applyMask, npCountNonzero, List.zip_cons_cons, List.filter] at *
        simpa using ih bs h
      | false =>
        simp only [applyMask, npCountNonzero, List.zip_cons_cons, List.filter] at *
        simpa using ih bs h

/-!
## Claim theorems
-/

/-- Claim C1: for pandas condition metrics, the unexpected_count provider
returns exactly k, the number of true rows of the stored unexpected
condition (and ignores the value kwargs, hence the result format); under
result_format "COMPLETE" the unexpected_values provider returns the list
of the column values at all unexpected rows in original row order, of
length exactly k; under any other result_format with cap n it returns
exactly the first min(k, n) entries of that same list, a stable
truncation (a list-take, hence a true prefix, never a sample). -/
theorem claimC1_result_format_semantics
    (cond : PandasConditionMetric) (tableColumns : List String)
    (filterNull : Bool) (dfColumn : List (Option PVal)) (colName : String)
    (hcol : cond.accessorColumn = some colName)
    (hmem : tableColumns.contains colName = true)
    (hlen : cond.mask.length
      = (if filterNull then dfColumn.filter (fun v => v.isSome) else dfColumn).length) :
    (∀ vk, pandasMapConditionUnexpectedCount cond vk = npCountNonzero cond.mask) ∧
    (∀ vk vk', pandasMapConditionUnexpectedCount cond vk
        = pandasMapConditionUnexpectedCount cond vk') ∧
    (∀ n, pandasColumnMapConditionValues cond tableColumns filterNull dfColumn
        ⟨"COMPLETE", n⟩
      = .ok (applyMask
          (if filterNull then dfColumn.filter (fun v => v.isSome) else dfColumn)
          cond.mask)) ∧
    ((applyMask (if filterNull then dfColumn.filter (fun v => v.isSome) else dfColumn)
        cond.mask).length = npCountNonzero cond.mask) ∧
    (∀ fmt n, fmt ≠ "COMPLETE" →
      pandasColumnMapConditionValues cond tableColumns filterNull dfColumn ⟨fmt, n⟩
        = .ok ((applyMask
            (if filterNull then dfColumn.filter (fun v => v.isSome) else dfColumn)
            cond.mask).take n) ∧
      ((applyMask (if filterNull then dfColumn.filter (fun v => v.isSome) else dfColumn)
          cond.mask).take n).length = min (npCountNonzero cond.mask) n ∧
      ((applyMask (if filterNull then dfColumn.filter (fun v => v.isSome) else dfColumn)
          cond.mask).take n)
        <+: (applyMask
            (if filterNull then dfColumn.filter (fun v => v.isSome) else dfColumn)
            cond.mask)) := by
  have hmem' : colName ∈ tableColumns := by simpa using hmem
  refine ⟨fun vk => rfl, fun vk vk' => rfl, ?_, ?_, ?_⟩
  · intro n
    simp [pandasColumnMapConditionValues, hcol, hmem']
  · exact applyMask_length _ _ hlen
  · intro fmt n hfmt
    refine ⟨?_, ?_, List.take_prefix n _⟩
    · simp [pandasColumnMapConditionValues, hcol, hmem', hfmt]
    · rw [List.length_take, applyMask_length _ _ hlen, Nat.min_comm]

/-- Witness for C1 at a concrete condition and frame: column
[10, 20, null, 40], null-filtering on, stored mask [false, true, true]
(k = 2), cap 1. -/
theorem claimC1_witness :
    (⟨[false, true, true], [], some "age"⟩ : PandasConditionMetric).accessorColumn
        = some "age" ∧
    pandasMapConditionUnexpectedCount ⟨[false, true, true], [], some "age"⟩ [] = 2 ∧
    pandasColumnMapConditionValues ⟨[false, true, true], [], some "age"⟩ ["age"] true
        [some (.vInt 10), some (.vInt 20), none, some (.vInt 40)] ⟨"COMPLETE", 20⟩
      = .ok [some (.vInt 20), some (.vInt 40)] ∧
    pandasColumnMapConditionValues ⟨[false, true, true], [], some "age"⟩ ["age"] true
        [some (.vInt 10), some (.vInt 20), none, some (.vInt 40)] ⟨"BASIC", 1⟩
      = .ok [some (.vInt 20)] := by
  have h := claimC1_result_format_semantics ⟨[false, true, true], [], some "age"⟩
    ["age"] true [some (.vInt 10), some (.vInt 20), none, some (.vInt 40)] "age"
    rfl (by rfl) (by rfl)
  refine ⟨rfl, h.1 [], ?_, ?_⟩
  · have := h.2.2.1 20
    simpa using this
  · have := (h.2.2.2.2 "BASIC" 1 (by simp)).1
    simpa using this

/-- Claim C5: a column condition partial stores the negation of the
business function's meets-expectation result.  Pandas: with
filter_column_isnull, null rows are dropped before the business function
runs and its boolean series is negated elementwise.  SQLAlchemy: with
filter_column_isnull the stored condition is the composed native
predicate sa.and_(sa.not_(column IS NULL), sa.not_(meets)) — boolean-
equivalent, for every valuation, to NOT(meets) AND column IS NOT NULL —
and without filter_column_isnull it is sa.not_(meets) alone. -/
theorem claimC5_condition_negation :
    (∀ (f : List (Option PVal) → List Bool) (cols : List String) (col : String)
        (series : List (Option PVal)), cols.contains col = true →
      columnConditionPartialPandas true f cols col series
        = .ok ((f (series.filter (fun v => v.isSome))).map (fun b => !b))) ∧
    (∀ (f : SqlExpr → SqlExpr) (cols : List String) (col : String),
        cols.contains col = true →
      columnConditionPartialSqlalchemy true f cols col
        = .ok (.sAnd (.sNot (.isNull (.column col))) (.sNot (f (.column col)))) ∧
      (∀ nu, SqlExpr.evalWith nu
          (.sAnd (.sNot (.isNull (.column col))) (.sNot (f (.column col))))
        = SqlExpr.evalWith nu
          (.sAnd (.sNot (f (.column col))) (.sNot (.isNull (.column col)))))) ∧
    (∀ (f : SqlExpr → SqlExpr) (cols : List String) (col : String),
        cols.contains col = true →
      columnConditionPartialSqlalchemy false f cols col
        = .ok (.sNot (f (.column col)))) := by
  refine ⟨?_, ?_, ?_⟩
  · intro f cols col series h
    simp [columnConditionPartialPandas, show col ∈ cols by simpa using h]
  · intro f cols col h
    refine ⟨by simp [columnConditionPartialSqlalchemy, show col ∈ cols by simpa using h], ?_⟩
    intro nu
    simp [SqlExpr.evalWith, Bool.and_comm]
  · intro f cols col h
    simp [columnConditionPartialSqlalchemy, show col ∈ cols by simpa using h]

/-- Witness for C5: a one-column table with an always-true business
predicate modelled by the atom col itself. -/
theorem claimC5_witness :
    columnConditionPartialPandas true
        (fun s => s.map (fun v => v.isSome)) ["a"] "a" [some (.vInt 1), none]
      = .ok [false] ∧
    columnConditionPartialSqlalchemy true (fun e => e) ["a"] "a"
      = .ok (.sAnd (.sNot (.isNull (.column "a"))) (.sNot (.column "a"))) ∧
    columnConditionPartialSqlalchemy false (fun e => e) ["a"] "a"
      = .ok (.sNot (.column "a")) := by
  refine ⟨?_, ?_, ?_⟩
  · have := claimC5_condition_negation.1 (fun s => s.map (fun v => v.isSome))
      ["a"] "a" [some (.vInt 1), none] (by rfl)
    simpa using this
  · exact (claimC5_condition_negation.2.1 (fun e => e) ["a"] "a" (by rfl)).1
  · exact claimC5_condition_negation.2.2 (fun e => e) ["a"] "a" (by rfl)

/-- Claim C6: every embedded column-domain adapter (pandas function
partial, pandas condition partial, sqlalchemy condition partial, and the
pandas unexpected-values detail provider) raises
InvalidMetricAccessorDomainKwargsKeyError when the accessor column is
not a member of the resolved table.columns metric; the result is the
same for every business-logic function, so the error fires before the
business function could be invoked. -/
theorem claimC6_missing_column_fails_fast (cols : List String) (col : String)
    (h : cols.contains col = false) :
    (∀ (filterNull : Bool) (f : List (Option PVal) → List PVal)
        (dfColumn : List (Option PVal)),
      columnFunctionPartialPandas filterNull f cols col dfColumn
        = .error .invalidMetricAccessorDomainKwargsKey) ∧
    (∀ (filterNull : Bool) (f : List (Option PVal) → List Bool)
        (dfColumn : List (Option PVal)),
      columnConditionPartialPandas filterNull f cols col dfColumn
        = .error .invalidMetricAccessorDomainKwargsKey) ∧
    (∀ (filterNull : Bool) (f : SqlExpr → SqlExpr),
      columnConditionPartialSqlalchemy filterNull f cols col
        = .error .invalidMetricAccessorDomainKwargsKey) ∧
    (∀ (mask : List Bool) (cdk : List (String × PVal)) (filterNull : Bool)
        (dfColumn : List (Option PVal)) (rf : ResultFormat),
      pandasColumnMapConditionValues ⟨mask, cdk, some col⟩ cols filterNull dfColumn rf
        = .error .invalidMetricAccessorDomainKwargsKey) := by
  have h' : ¬ (col ∈ cols) := by
    intro hc
    have : cols.contains col = true :=
      List.contains_iff_exists_mem_beq.mpr ⟨col, hc, by simp⟩
    rw [h] at this
    exact Bool.false_ne_true this
  refine ⟨?_, ?_, ?_, ?_⟩
  · intro filterNull f dfColumn
    simp [columnFunctionPartialPandas, h']
  · intro filterNull f dfColumn
    simp [columnConditionPartialPandas, h']
  · intro filterNull f
    simp [columnConditionPartialSqlalchemy, h']
  · intro mask cdk filterNull dfColumn rf
    simp [pandasColumnMapConditionValues, h']

/-- Witness for C6 at the concrete missing column "nonexistent" against
a batch with columns ["age"]. -/
theorem claimC6_witness :
    (["age"].contains "nonexistent" = false) ∧
    columnConditionPartialPandas true (fun s => s.map (fun v => v.isSome))
        ["age"] "nonexistent" [some (.vInt 1)]
      = .error .invalidMetricAccessorDomainKwargsKey ∧
    pandasColumnMapConditionValues ⟨[true], [], some "nonexistent"⟩ ["age"] false
        [some (.vInt 1)] ⟨"COMPLETE", 20⟩
      = .error .invalidMetricAccessorDomainKwargsKey := by
  have h := claimC6_missing_column_fails_fast ["age"] "nonexistent" (by rfl)
  exact ⟨by rfl, h.2.1 true (fun s => s.map (fun v => v.isSome)) [some (.vInt 1)],
    h.2.2.2 [true] [] false [some (.vInt 1)] ⟨"COMPLETE", 20⟩⟩

/-- Claim C9: in the unexpected_value_counts provider's counting core,
the tuple-coercion fallback is attempted exactly when (and only when)
the straightforward value-counts call raises ValueError, and in that
case MetricComputationError is raised if and only if the fallback also
fails to produce counts (it, too, raises ValueError, leaving
value_counts as None).  When either attempt does produce a counts
Series, the "if not value_counts:" check itself raises an uncaught
ValueError (pandas Series truthiness), so a produced counts object is
never the source of a MetricComputationError. -/
theorem claimC9_value_counts_fallback :
    (∀ (vc : List (PVal × Nat)) (fallback : Option (List (PVal × Nat))),
      (pandasValueCountsWithFallback (some vc) fallback).2 = false) ∧
    (∀ fallback : Option (List (PVal × Nat)),
      (pandasValueCountsWithFallback none fallback).2 = true) ∧
    (∀ fallback : Option (List (PVal × Nat)),
      ((pandasValueCountsWithFallback none fallback).1
          = .error .metricComputationError
        ↔ fallback = none)) ∧
    (∀ vc : List (PVal × Nat),
      (pandasValueCountsWithFallback none (some vc)).1 = .error .valueError) := by
  refine ⟨fun vc fallback => rfl, ?_, ?_, fun vc => rfl⟩
  · intro fallback
    cases fallback <;> rfl
  · intro fallback
    cases fallback with
    | none => simp [pandasValueCountsWithFallback]
    | some vc => simp [pandasValueCountsWithFallback]

/-- Witness for C9: the first attempt raises (unhashable values); a
fallback that also raises yields MetricComputationError, while a
fallback that produces one tuple count ends in the truthiness-check
ValueError rather than MetricComputationError. -/
theorem claimC9_witness :
    (pandasValueCountsWithFallback none none).1
        = .error .metricComputationError ∧
    (pandasValueCountsWithFallback none none).2 = true ∧
    (pandasValueCountsWithFallback none (some [(.vList [.vInt 1], 2)])).1
        = .error .valueError := by
  exact ⟨(claimC9_value_counts_fallback.2.2.1 none).mpr rfl,
    claimC9_value_counts_fallback.2.1 none,
    claimC9_value_counts_fallback.2.2.2 [(.vList [.vInt 1], 2)]⟩

/-!
### Dependency-resolver lemmas
-/

/-- Invariant of the dependency dict under construction: every stored
configuration carries the result_format-stripped value kwargs, except an
entry under "metric_map_fn" which carries vkMap. -/
def GoodDeps (vkBase vkMap : List (String × PVal))
    (d : List (String × MetricConfiguration)) : Prop :=
  ∀ role cfg, dictGet? d role = some cfg →
    (role = "metric_map_fn" ∧ cfg.valueKwargs = vkMap) ∨ cfg.valueKwargs = vkBase

theorem goodDeps_nil (vkBase vkMap : List (String × PVal)) :
    GoodDeps vkBase vkMap [] := by
  intro role cfg hget
  simp [dictGet?] at hget

theorem goodDeps_set_base (vkBase vkMap : List (String × PVal))
    (d : List (String × MetricConfiguration)) (k : String)
    (cfg : MetricConfiguration) (hd : GoodDeps vkBase vkMap d)
    (hcfg : cfg.valueKwargs = vkBase) :
    GoodDeps vkBase vkMap (dictSet d k cfg) := by
  intro role cfg' hget
  by_cases hrole : role = k
  · subst hrole
    rw [dictGet?_dictSet_self] at hget
    cases hget
    exact Or.inr hcfg
  · rw [dictGet?_dictSet_ne _ _ _ _ hrole] at hget
    exact hd role cfg' hget

theorem goodDeps_set_map (vkBase vkMap : List (String × PVal))
    (d : List (String × MetricConfiguration)) (cfg : MetricConfiguration)
    (hd : GoodDeps vkBase vkMap d) (hcfg : cfg.valueKwargs = vkMap) :
    GoodDeps vkBase vkMap (dictSet d "metric_map_fn" cfg) := by
  intro role cfg' hget
  by_cases hrole : role = "metric_map_fn"
  · subst hrole
    rw [dictGet?_dictSet_self] at hget
    cases hget
    exact Or.inl ⟨rfl, hcfg⟩
  · rw [dictGet?_dictSet_ne _ _ _ _ hrole] at hget
    exact hd role cfg' hget

theorem goodDeps_foldl (vkBase vkMap : List (String × PVal))
    (c : String → Bool) (g : String → MetricConfiguration)
    (hg : ∀ sfx, (g sfx).valueKwargs = vkBase) (l : List String)
    (d : List (String × MetricConfiguration)) (hd : GoodDeps vkBase vkMap d) :
    GoodDeps vkBase vkMap (l.foldl
      (fun deps sfx => if c sfx then dictSet deps "unexpected_condition" (g sfx)
        else deps) d) := by
  induction l generalizing d with
  | nil => exact hd
  | cons sfx rest ih =>
    simp only [List.foldl_cons]
    apply ih
    by_cases hc : c sfx
    · simp only [hc, if_true]
      exact goodDeps_set_base _ _ _ _ _ hd (hg sfx)
    · simpa [hc] using hd

/-- All configurations produced by the base resolver carry the
result_format-stripped value kwargs, except the "metric_map_fn" entry
which carries the parent's value kwargs unmodified. -/
theorem mapDeps_role_value_kwargs (registered : String → Bool)
    (m : MetricConfiguration) :
    GoodDeps (baseMetricValueKwargs m) m.valueKwargs
      (mapMetricGetEvaluationDependencies registered m) := by
  simp only [mapMetricGetEvaluationDependencies]
  have base : GoodDeps (baseMetricValueKwargs m) m.valueKwargs
      (if strEndsWith m.metricName ".unexpected_count" then
        if registered (m.metricName ++ ".aggregate_fn") then
          dictSet [] "metric_partial_fn"
            ⟨m.metricName ++ ".aggregate_fn", m.domainKwargs, baseMetricValueKwargs m⟩
        else
          dictSet [] "unexpected_condition"
            ⟨strDropSuffix m.metricName ".unexpected_count" ++ ".condition",
             m.domainKwargs, baseMetricValueKwargs m⟩
       else []) := by
    split
    · split
      · exact goodDeps_set_base _ _ _ _ _ (goodDeps_nil _ _) rfl
      · exact goodDeps_set_base _ _ _ _ _ (goodDeps_nil _ _) rfl
    · exact goodDeps_nil _ _
  have base2 : GoodDeps (baseMetricValueKwargs m) m.valueKwargs
      (if strEndsWith m.metricName ".unexpected_count.aggregate_fn" then
        dictSet (if strEndsWith m.metricName ".unexpected_count" then
          if registered (m.metricName ++ ".aggregate_fn") then
            dictSet [] "metric_partial_fn"
              ⟨m.metricName ++ ".aggregate_fn", m.domainKwargs,
               baseMetricValueKwargs m⟩
          else
            dictSet [] "unexpected_condition"
              ⟨strDropSuffix m.metricName ".unexpected_count" ++ ".condition",
               m.domainKwargs, baseMetricValueKwargs m⟩
         else []) "unexpected_condition"
          ⟨strDropSuffix m.metricName ".unexpected_count.aggregate_fn" ++ ".condition",
           m.domainKwargs, baseMetricValueKwargs m⟩
       else
        (if strEndsWith m.metricName ".unexpected_count" then
          if registered (m.metricName ++ ".aggregate_fn") then
            dictSet [] "metric_partial_fn"
              ⟨m.metricName ++ ".aggregate_fn", m.domainKwargs,
               baseMetricValueKwargs m⟩
          else
            dictSet [] "unexpected_condition"
              ⟨strDropSuffix m.metricName ".unexpected_count" ++ ".condition",
               m.domainKwargs, baseMetricValueKwargs m⟩
         else [])) := by
    split
    · exact goodDeps_set_base _ _ _ _ _ base rfl
    · exact base
  have base3 := goodDeps_foldl (baseMetricValueKwargs m) m.valueKwargs
    (fun sfx => strEndsWith m.metricName sfx)
    (fun sfx => ⟨strDropSuffix m.metricName sfx ++ ".condition",
      m.domainKwargs, baseMetricValueKwargs m⟩)
    (fun sfx => rfl) detailSuffixes _ base2
  split
  · exact goodDeps_set_map _ _ _ _ base3 rfl
  · exact base3

/-- Claim C10: every dependency generated by the suffix rules of the
base resolver is keyed by the parent's value kwargs with "result_format"
removed; only the "metric_map_fn" dependency carries the parent's value
kwargs unmodified (and is exactly the "<name>.map" configuration when
registered); consequently two parent metrics that agree on name, domain
kwargs and result_format-stripped value kwargs generate identical
dependencies at every role other than "metric_map_fn" — in particular
they share one and the same unexpected-condition metric identity. -/
theorem claimC10_result_format_stripped_dependencies
    (registered : String → Bool) (m : MetricConfiguration) :
    (∀ cfg, dictGet? (mapMetricGetEvaluationDependencies registered m)
        "metric_partial_fn" = some cfg →
      cfg.valueKwargs = baseMetricValueKwargs m) ∧
    (∀ cfg, dictGet? (mapMetricGetEvaluationDependencies registered m)
        "unexpected_condition" = some cfg →
      cfg.valueKwargs = baseMetricValueKwargs m) ∧
    (∀ cfg, dictGet? (mapMetricGetEvaluationDependencies registered m)
        "metric_map_fn" = some cfg →
      cfg = ⟨m.metricName ++ ".map", m.domainKwargs, m.valueKwargs⟩) ∧
    (∀ m₂, m.metricName = m₂.metricName → m.domainKwargs = m₂.domainKwargs →
      baseMetricValueKwargs m = baseMetricValueKwargs m₂ →
      ∀ role, role ≠ "metric_map_fn" →
        dictGet? (mapMetricGetEvaluationDependencies registered m) role
          = dictGet? (mapMetricGetEvaluationDependencies registered m₂) role) := by
  refine ⟨?_, ?_, ?_, ?_⟩
  · intro cfg hget
    rcases mapDeps_role_value_kwargs registered m _ _ hget with ⟨hrole, _⟩ | hbase
    · exact absurd hrole (by decide)
    · exact hbase
  · intro cfg hget
    rcases mapDeps_role_value_kwargs registered m _ _ hget with ⟨hrole, _⟩ | hbase
    · exact absurd hrole (by decide)
    · exact hbase
  · intro cfg hget
    unfold mapMetricGetEvaluationDependencies at hget
    have hnone : ∀ (l : List String)
        (d : List (String × MetricConfiguration)),
        dictGet? d "metric_map_fn" = none →
        dictGet? (l.foldl (fun deps sfx =>
          if strEndsWith m.metricName sfx then
            dictSet deps "unexpected_condition"
              ⟨strDropSuffix m.metricName sfx ++ ".condition",
               m.domainKwargs, baseMetricValueKwargs m⟩
          else deps) d) "metric_map_fn" = none := by
      intro l
      induction l with
      | nil => intro d hd; exact hd
      | cons sfx rest ih =>
        intro d hd
        simp only [List.foldl_cons]
        apply ih
        by_cases hc : strEndsWith m.metricName sfx
        · simp only [hc, if_true]
          rw [dictGet?_dictSet_ne _ _ _ _ (by decide)]
          exact hd
        · simpa [hc] using hd
    have hd0 : dictGet? (if strEndsWith m.metricName ".unexpected_count" then
        if registered (m.metricName ++ ".aggregate_fn") then
          dictSet ([] : List (String × MetricConfiguration)) "metric_partial_fn"
            ⟨m.metricName ++ ".aggregate_fn", m.domainKwargs, baseMetricValueKwargs m⟩
        else
          dictSet ([] : List (String × MetricConfiguration)) "unexpected_condition"
            ⟨strDropSuffix m.metricName ".unexpected_count" ++ ".condition",
             m.domainKwargs, baseMetricValueKwargs m⟩
       else []) "metric_map_fn" = none := by
      split
      · split
        · rw [dictGet?_dictSet_ne _ _ _ _ (by decide)]; rfl
        · rw [dictGet?_dictSet_ne _ _ _ _ (by decide)]; rfl
      · rfl
    have hd1 : dictGet? (if strEndsWith m.metricName ".unexpected_count.aggregate_fn"
        then dictSet (if strEndsWith m.metricName ".unexpected_count" then
          if registered (m.metricName ++ ".aggregate_fn") then
            dictSet ([] : List (String × MetricConfiguration)) "metric_partial_fn"
              ⟨m.metricName ++ ".aggregate_fn", m.domainKwargs,
               baseMetricValueKwargs m⟩
          else
            dictSet ([] : List (String × MetricConfiguration)) "unexpected_condition"
              ⟨strDropSuffix m.metricName ".unexpected_count" ++ ".condition",
               m.domainKwargs, baseMetricValueKwargs m⟩
         else []) "unexpected_condition"
          ⟨strDropSuffix m.metricName ".unexpected_count.aggregate_fn" ++ ".condition",
           m.domainKwargs, baseMetricValueKwargs m⟩
        else
         (if strEndsWith m.metricName ".unexpected_count" then
          if registered (m.metricName ++ ".aggregate_fn") then
            dictSet ([] : List (String × MetricConfiguration)) "metric_partial_fn"
              ⟨m.metricName ++ ".aggregate_fn", m.domainKwargs,
               baseMetricValueKwargs m⟩
          else
            dictSet ([] : List (String × MetricConfiguration)) "unexpected_condition"
              ⟨strDropSuffix m.metricName ".unexpected_count" ++ ".condition",
               m.domainKwargs, baseMetricValueKwargs m⟩
         else [])) "metric_map_fn" = none := by
      split
      · rw [dictGet?_dictSet_ne _ _ _ _ (by decide)]
        exact hd0
      · exact hd0
    revert hget
    simp only [mapMetricGetEvaluationDependencies]
    split
    · rw [dictGet?_dictSet_self]
      intro hget
      cases hget
      rfl
    · rw [hnone detailSuffixes _ hd1]
      intro hget
      cases hget
  · intro m₂ hn hd hb role hrole
    simp only [mapMetricGetEvaluationDependencies]
    rw [hn, hd, hb]
    split
    · rw [dictGet?_dictSet_ne _ _ _ _ hrole, dictGet?_dictSet_ne _ _ _ _ hrole]
    · rfl

/-- Claim C2: a metric ending in ".unexpected_count" resolves to exactly
one of two dependencies: when "<name>.aggregate_fn" is registered for
the execution engine, role "metric_partial_fn" mapped to
"<name>.aggregate_fn" with the same domain kwargs (and no
"unexpected_condition" entry); otherwise role "unexpected_condition"
mapped to "<prefix>.condition" where <prefix> is the name with the
".unexpected_count" suffix stripped (and no "metric_partial_fn"
entry). -/
theorem claimC2_unexpected_count_dependency (registered : String → Bool)
    (m : MetricConfiguration)
    (h : strEndsWith m.metricName ".unexpected_count" = true) :
    (registered (m.metricName ++ ".aggregate_fn") = true →
      dictGet? (mapMetricGetEvaluationDependencies registered m) "metric_partial_fn"
        = some ⟨m.metricName ++ ".aggregate_fn", m.domainKwargs,
            baseMetricValueKwargs m⟩ ∧
      dictGet? (mapMetricGetEvaluationDependencies registered m)
        "unexpected_condition" = none) ∧
    (registered (m.metricName ++ ".aggregate_fn") = false →
      dictGet? (mapMetricGetEvaluationDependencies registered m)
          "unexpected_condition"
        = some ⟨strDropSuffix m.metricName ".unexpected_count" ++ ".condition",
            m.domainKwargs, baseMetricValueKwargs m⟩ ∧
      strDropSuffix m.metricName ".unexpected_count" ++ ".unexpected_count"
        = m.metricName ∧
      dictGet? (mapMetricGetEvaluationDependencies registered m)
        "metric_partial_fn" = none) := by
  have hagg : strEndsWith m.metricName ".unexpected_count.aggregate_fn" = false :=
    strEndsWith_excl _ _ _ h (by decide)
  have hd1 : strEndsWith m.metricName ".unexpected_values" = false :=
    strEndsWith_excl _ _ _ h (by decide)
  have hd2 : strEndsWith m.metricName ".unexpected_value_counts" = false :=
    strEndsWith_excl _ _ _ h (by decide)
  have hd3 : strEndsWith m.metricName ".unexpected_index_list" = false :=
    strEndsWith_excl _ _ _ h (by decide)
  have hd4 : strEndsWith m.metricName ".unexpected_rows" = false :=
    strEndsWith_excl _ _ _ h (by decide)
  have hd5 : strEndsWith m.metricName ".filtered_row_count" = false :=
    strEndsWith_excl _ _ _ h (by decide)
  constructor
  · intro hreg
    simp only [mapMetricGetEvaluationDependencies, detailSuffixes, List.foldl_cons,
      List.foldl_nil, h, hagg, hd1, hd2, hd3, hd4, hd5, hreg, if_true,
      Bool.false_eq_true, if_false]
    cases hmap : registered (m.metricName ++ ".map") with
    | false =>
      simp only [Bool.false_eq_true, if_false]
      exact ⟨dictGet?_dictSet_self _ _ _, rfl⟩
    | true =>
      simp only [if_true]
      refine ⟨?_, ?_⟩
      · rw [dictGet?_dictSet_ne _ _ _ _ (by decide)]
        exact dictGet?_dictSet_self _ _ _
      · rw [dictGet?_dictSet_ne _ _ _ _ (by decide)]
        rfl
  · intro hreg
    refine ⟨?_, strDropSuffix_append _ _ h, ?_⟩ <;>
    · simp only [mapMetricGetEvaluationDependencies, detailSuffixes, List.foldl_cons,
        List.foldl_nil, h, hagg, hd1, hd2, hd3, hd4, hd5, hreg, if_true,
        Bool.false_eq_true, if_false]
      cases hmap : registered (m.metricName ++ ".map") with
      | false =>
        simp only [Bool.false_eq_true, if_false]
        first
        | exact dictGet?_dictSet_self _ _ _
        | rfl
      | true =>
        simp only [if_true]
        rw [dictGet?_dictSet_ne _ _ _ _ (by decide)]
        first
        | exact dictGet?_dictSet_self _ _ _
        | rfl

/-- Witness for C2 at the concrete metric
"column_values.in_set.unexpected_count": with an aggregate_fn-capable
registry the metric_partial_fn dependency is produced; with an empty
registry the unexpected_condition dependency on
"column_values.in_set.condition" is produced, with result_format
stripped from the value kwargs. -/
theorem claimC2_witness :
    dictGet? (mapMetricGetEvaluationDependencies
        (fun n => n == "column_values.in_set.unexpected_count.aggregate_fn")
        ⟨"column_values.in_set.unexpected_count", [("column", .vStr "a")],
         [("result_format", .vStr "BASIC")]⟩) "metric_partial_fn"
      = some ⟨"column_values.in_set.unexpected_count.aggregate_fn",
          [("column", .vStr "a")], []⟩ ∧
    dictGet? (mapMetricGetEvaluationDependencies (fun _ => false)
        ⟨"column_values.in_set.unexpected_count", [("column", .vStr "a")],
         [("result_format", .vStr "BASIC")]⟩) "unexpected_condition"
      = some ⟨"column_values.in_set.condition", [("column", .vStr "a")], []⟩ := by
  constructor
  · exact ((claimC2_unexpected_count_dependency
      (fun n => n == "column_values.in_set.unexpected_count.aggregate_fn")
      ⟨"column_values.in_set.unexpected_count", [("column", .vStr "a")],
       [("result_format", .vStr "BASIC")]⟩ (by decide)).1 (by decide)).1
  · exact ((claimC2_unexpected_count_dependency (fun _ => false)
      ⟨"column_values.in_set.unexpected_count", [("column", .vStr "a")],
       [("result_format", .vStr "BASIC")]⟩ (by decide)).2 rfl).1

/-- Claim C3: a metric ending in one of the five unexpected-detail
suffixes resolves to an "unexpected_condition" dependency on
"<prefix>.condition", where <prefix> is the name with that suffix
stripped, carrying the same domain kwargs as the requested metric. -/
theorem claimC3_detail_condition_dependency (registered : String → Bool)
    (m : MetricConfiguration) (sfx : String) (hmem : sfx ∈ detailSuffixes)
    (h : strEndsWith m.metricName sfx = true) :
    dictGet? (mapMetricGetEvaluationDependencies registered m)
        "unexpected_condition"
      = some ⟨strDropSuffix m.metricName sfx ++ ".condition",
          m.domainKwargs, baseMetricValueKwargs m⟩ ∧
    strDropSuffix m.metricName sfx ++ sfx = m.metricName := by
  have hfin : ∀ d : List (String × MetricConfiguration),
      dictGet? d "unexpected_condition"
        = some ⟨strDropSuffix m.metricName sfx ++ ".condition",
            m.domainKwargs, baseMetricValueKwargs m⟩ →
      dictGet? (if registered (m.metricName ++ ".map") then
          dictSet d "metric_map_fn"
            ⟨m.metricName ++ ".map", m.domainKwargs, m.valueKwargs⟩
        else d) "unexpected_condition"
        = some ⟨strDropSuffix m.metricName sfx ++ ".condition",
            m.domainKwargs, baseMetricValueKwargs m⟩ := by
    intro d hd
    cases hmap : registered (m.metricName ++ ".map") with
    | false => simpa using hd
    | true =>
      simp only [if_true]
      rw [dictGet?_dictSet_ne _ _ _ _ (by decide)]
      exact hd
  simp only [detailSuffixes, List.mem_cons, List.not_mem_nil, or_false] at hmem
  rcases hmem with rfl | rfl | rfl | rfl | rfl
  · have huc : strEndsWith m.metricName ".unexpected_count" = false :=
      strEndsWith_excl _ _ _ h (by decide)
    have hagg : strEndsWith m.metricName ".unexpected_count.aggregate_fn" = false :=
      strEndsWith_excl _ _ _ h (by decide)
    have h2 : strEndsWith m.metricName ".unexpected_value_counts" = false :=
      strEndsWith_excl _ _ _ h (by decide)
    have h3 : strEndsWith m.metricName ".unexpected_index_list" = false :=
      strEndsWith_excl _ _ _ h (by decide)
    have h4 : strEndsWith m.metricName ".unexpected_rows" = false :=
      strEndsWith_excl _ _ _ h (by decide)
    have h5 : strEndsWith m.metricName ".filtered_row_count" = false :=
      strEndsWith_excl _ _ _ h (by decide)
    refine ⟨?_, strDropSuffix_append _ _ h⟩
    simp only [mapMetricGetEvaluationDependencies, detailSuffixes, List.foldl_cons,
      List.foldl_nil, h, huc, hagg, h2, h3, h4, h5, if_true,
      Bool.false_eq_true, if_false]
    exact hfin _ (dictGet?_dictSet_self _ _ _)
  · have huc : strEndsWith m.metricName ".unexpected_count" = false :=
      strEndsWith_excl _ _ _ h (by decide)
    have hagg : strEndsWith m.metricName ".unexpected_count.aggregate_fn" = false :=
      strEndsWith_excl _ _ _ h (by decide)
    have h1 : strEndsWith m.metricName ".unexpected_values" = false :=
      strEndsWith_excl _ _ _ h (by decide)
    have h3 : strEndsWith m.metricName ".unexpected_index_list" = false :=
      strEndsWith_excl _ _ _ h (by decide)
    have h4 : strEndsWith m.metricName ".unexpected_rows" = false :=
      strEndsWith_excl _ _ _ h (by decide)
    have h5 : strEndsWith m.metricName ".filtered_row_count" = false :=
      strEndsWith_excl _ _ _ h (by decide)
    refine ⟨?_, strDropSuffix_append _ _ h⟩
    simp only [mapMetricGetEvaluationDependencies, detailSuffixes, List.foldl_cons,
      List.foldl_nil, h, huc, hagg, h1, h3, h4, h5, if_true,
      Bool.false_eq_true, if_false]
    exact hfin _ (dictGet?_dictSet_self _ _ _)
  · have huc : strEndsWith m.metricName ".unexpected_count" = false :=
      strEndsWith_excl _ _ _ h (by decide)
    have hagg : strEndsWith m.metricName ".unexpected_count.aggregate_fn" = false :=
      strEndsWith_excl _ _ _ h (by decide)
    have h1 : strEndsWith m.metricName ".unexpected_values" = false :=
      strEndsWith_excl _ _ _ h (by decide)
    have h2 : strEndsWith m.metricName ".unexpected_value_counts" = false :=
      strEndsWith_excl _ _ _ h (by decide)
    have h4 : strEndsWith m.metricName ".unexpected_rows" = false :=
      strEndsWith_excl _ _ _ h (by decide)
    have h5 : strEndsWith m.metricName ".filtered_row_count" = false :=
      strEndsWith_excl _ _ _ h (by decide)
    refine ⟨?_, strDropSuffix_append _ _ h⟩
    simp only [mapMetricGetEvaluationDependencies, detailSuffixes, List.foldl_cons,
      List.foldl_nil, h, huc, hagg, h1, h2, h4, h5, if_true,
      Bool.false_eq_true, if_false]
    exact hfin _ (dictGet?_dictSet_self _ _ _)
  · have huc : strEndsWith m.metricName ".unexpected_count" = false :=
      strEndsWith_excl _ _ _ h (by decide)
    have hagg : strEndsWith m.metricName ".unexpected_count.aggregate_fn" = false :=
      strEndsWith_excl _ _ _ h (by decide)
    have h1 : strEndsWith m.metricName ".unexpected_values" = false :=
      strEndsWith_excl _ _ _ h (by decide)
    have h2 : strEndsWith m.metricName ".unexpected_value_counts" = false :=
      strEndsWith_excl _ _ _ h (by decide)
    have h3 : strEndsWith m.metricName ".unexpected_index_list" = false :=
      strEndsWith_excl _ _ _ h (by decide)
    have h5 : strEndsWith m.metricName ".filtered_row_count" = false :=
      strEndsWith_excl _ _ _ h (by decide)
    refine ⟨?_, strDropSuffix_append _ _ h⟩
    simp only [mapMetricGetEvaluationDependencies, detailSuffixes, List.foldl_cons,
      List.foldl_nil, h, huc, hagg, h1, h2, h3, h5, if_true,
      Bool.false_eq_true, if_false]
    exact hfin _ (dictGet?_dictSet_self _ _ _)
  · have huc : strEndsWith m.metricName ".unexpected_count" = false :=
      strEndsWith_excl _ _ _ h (by decide)
    have hagg : strEndsWith m.metricName ".unexpected_count.aggregate_fn" = false :=
      strEndsWith_excl _ _ _ h (by decide)
    have h1 : strEndsWith m.metricName ".unexpected_values" = false :=
      strEndsWith_excl _ _ _ h (by decide)
    have h2 : strEndsWith m.metricName ".unexpected_value_counts" = false :=
      strEndsWith_excl _ _ _ h (by decide)
    have h3 : strEndsWith m.metricName ".unexpected_index_list" = false :=
      strEndsWith_excl _ _ _ h (by decide)
    have h4 : strEndsWith m.metricName ".unexpected_rows" = false :=
      strEndsWith_excl _ _ _ h (by decide)
    refine ⟨?_, strDropSuffix_append _ _ h⟩
    simp only [mapMetricGetEvaluationDependencies, detailSuffixes, List.foldl_cons,
      List.foldl_nil, h, huc, hagg, h1, h2, h3, h4, if_true,
      Bool.false_eq_true, if_false]
    exact hfin _ (dictGet?_dictSet_self _ _ _)

/-- Witness for C3 at "column_values.in_set.unexpected_values". -/
theorem claimC3_witness :
    dictGet? (mapMetricGetEvaluationDependencies (fun _ => false)
        ⟨"column_values.in_set.unexpected_values", [("column", .vStr "a")],
         [("result_format", .vStr "SUMMARY"), ("value_set", .vInt 3)]⟩)
        "unexpected_condition"
      = some ⟨"column_values.in_set.condition", [("column", .vStr "a")],
          [("value_set", .vInt 3)]⟩ := by
  exact (claimC3_detail_condition_dependency (fun _ => false)
    ⟨"column_values.in_set.unexpected_values", [("column", .vStr "a")],
     [("result_format", .vStr "SUMMARY"), ("value_set", .vInt 3)]⟩
    ".unexpected_values" (by decide) (by decide)).1

/-- Claim C4: the COLUMN, COLUMN_PAIR and MULTICOLUMN map-metric
providers always additionally return the three table-level dependencies
"table.column_types", "table.columns" and "table.row_count", each keyed
by the requested metric's domain kwargs with the respective accessor
keys removed ("column" for COLUMN; "column_A", "column_B",
"ignore_row_if" for COLUMN_PAIR; "column_list", "ignore_row_if" for
MULTICOLUMN). -/
theorem claimC4_table_level_dependencies (registered : String → Bool)
    (m : MetricConfiguration) :
    (dictGet? (columnMapGetEvaluationDependencies registered m) "table.column_types"
      = some ⟨"table.column_types",
          m.domainKwargs.filter (fun p => p.1 ≠ "column"),
          [("include_nested", .vBool true)]⟩) ∧
    (dictGet? (columnMapGetEvaluationDependencies registered m) "table.columns"
      = some ⟨"table.columns",
          m.domainKwargs.filter (fun p => p.1 ≠ "column"), []⟩) ∧
    (dictGet? (columnMapGetEvaluationDependencies registered m) "table.row_count"
      = some ⟨"table.row_count",
          m.domainKwargs.filter (fun p => p.1 ≠ "column"), []⟩) ∧
    (dictGet? (columnPairMapGetEvaluationDependencies registered m)
        "table.column_types"
      = some ⟨"table.column_types",
          m.domainKwargs.filter
            (fun p => ¬ (p.1 ∈ ["column_A", "column_B", "ignore_row_if"])),
          [("include_nested", .vBool true)]⟩) ∧
    (dictGet? (columnPairMapGetEvaluationDependencies registered m) "table.columns"
      = some ⟨"table.columns",
          m.domainKwargs.filter
            (fun p => ¬ (p.1 ∈ ["column_A", "column_B", "ignore_row_if"])), []⟩) ∧
    (dictGet? (columnPairMapGetEvaluationDependencies registered m) "table.row_count"
      = some ⟨"table.row_count",
          m.domainKwargs.filter
            (fun p => ¬ (p.1 ∈ ["column_A", "column_B", "ignore_row_if"])), []⟩) ∧
    (dictGet? (multicolumnMapGetEvaluationDependencies registered m)
        "table.column_types"
      = some ⟨"table.column_types",
          m.domainKwargs.filter
            (fun p => ¬ (p.1 ∈ ["column_list", "ignore_row_if"])),
          [("include_nested", .vBool true)]⟩) ∧
    (dictGet? (multicolumnMapGetEvaluationDependencies registered m) "table.columns"
      = some ⟨"table.columns",
          m.domainKwargs.filter
            (fun p => ¬ (p.1 ∈ ["column_list", "ignore_row_if"])), []⟩) ∧
    (dictGet? (multicolumnMapGetEvaluationDependencies registered m)
        "table.row_count"
      = some ⟨"table.row_count",
          m.domainKwargs.filter
            (fun p => ¬ (p.1 ∈ ["column_list", "ignore_row_if"])), []⟩) := by
  refine ⟨?_, ?_, ?_, ?_, ?_, ?_, ?_, ?_, ?_⟩ <;>
    simp only [columnMapGetEvaluationDependencies,
      columnPairMapGetEvaluationDependencies,
      multicolumnMapGetEvaluationDependencies, addTableDependencies] <;>
    first
    | exact dictGet?_dictSet_self _ _ _
    | (rw [dictGet?_dictSet_ne _ _ _ _ (by decide)]
       exact dictGet?_dictSet_self _ _ _)
    | (rw [dictGet?_dictSet_ne _ _ _ _ (by decide),
        dictGet?_dictSet_ne _ _ _ _ (by decide)]
       exact dictGet?_dictSet_self _ _ _)

/-- Witness for C10: in a concrete detail-metric resolution the
condition dependency carries the result_format-stripped value kwargs,
and two requests differing only in result_format share one identical
unexpected-condition dependency. -/
theorem claimC10_witness :
    (∀ cfg, dictGet? (mapMetricGetEvaluationDependencies (fun _ => false)
        ⟨"x.unexpected_values", [("column", .vStr "a")],
         [("result_format", .vStr "BASIC"), ("value_set", .vInt 1)]⟩)
        "unexpected_condition" = some cfg →
      cfg.valueKwargs = [("value_set", .vInt 1)]) ∧
    dictGet? (mapMetricGetEvaluationDependencies (fun _ => false)
        ⟨"x.unexpected_values", [("column", .vStr "a")],
         [("result_format", .vStr "BASIC"), ("value_set", .vInt 1)]⟩)
        "unexpected_condition"
      = dictGet? (mapMetricGetEvaluationDependencies (fun _ => false)
        ⟨"x.unexpected_values", [("column", .vStr "a")],
         [("result_format", .vStr "COMPLETE"), ("value_set", .vInt 1)]⟩)
        "unexpected_condition" := by
  constructor
  · intro cfg hcfg
    have := (claimC10_result_format_stripped_dependencies (fun _ => false)
      ⟨"x.unexpected_values", [("column", .vStr "a")],
       [("result_format", .vStr "BASIC"), ("value_set", .vInt 1)]⟩).2.1 cfg hcfg
    simpa using this
  · exact (claimC10_result_format_stripped_dependencies (fun _ => false)
      ⟨"x.unexpected_values", [("column", .vStr "a")],
       [("result_format", .vStr "BASIC"), ("value_set", .vInt 1)]⟩).2.2.2
      ⟨"x.unexpected_values", [("column", .vStr "a")],
       [("result_format", .vStr "COMPLETE"), ("value_set", .vInt 1)]⟩
      rfl rfl (by rfl) "unexpected_condition" (by decide)

/-!
### Parameter-namespace lemmas (claim C7)
-/

theorem takeWhile_of_all {α : Type} (p : α → Bool) (l : List α)
    (h : ∀ a ∈ l, p a = true) :
    l.takeWhile p = l ∧ l.dropWhile p = [] := by
  induction l with
  | nil => exact ⟨rfl, rfl⟩
  | cons a t ih =>
    have ha := h a (List.mem_cons_self ..)
    have ih' := ih (fun b hb => h b (List.mem_cons_of_mem _ hb))
    simp [List.takeWhile_cons, List.dropWhile_cons, ha, ih'.1, ih'.2]

/-- A bare-identifier segment parses to itself with no accessors. -/
theorem parse_bareIdent (s : String) (h : isBareIdent s = true) :
    parseAttributeNamingPattern s = .ok (s, []) := by
  cases s with
  | mk data =>
    cases data with
    | nil => simp [isBareIdent] at h
    | cons c cs =>
      simp only [isBareIdent, Bool.and_eq_true, List.all_eq_true] at h
      obtain ⟨hc, hcs⟩ := h
      have hall : ∀ d ∈ cs, identChar d = true := by
        intro d hd
        have hx := hcs d hd
        simp only [identChar]
        rcases (Bool.or_eq_true ..).mp hx with h1 | h2
        · simp [h1]
        · simp [h2]
      obtain ⟨ht, hdrp⟩ := takeWhile_of_all identChar cs hall
      simp [parseAttributeNamingPattern, parseWordAlphas, hc, ht, hdrp, parseAccessors,
        Except.map]

/-- Build-then-resolve round trip on one fresh tree, for a path of bare
identifier segments. -/
theorem buildResolve_aux (parts : List String) (v : PVal)
    (hne : parts ≠ []) (hbare : ∀ p ∈ parts, isBareIdent p = true) :
    ∃ tree, buildParameterNodeTree (.vDict []) parts v = .ok tree ∧
      ∃ par ref, resolveParts tree parts = .ok (v, par, ref) ∧
        pvalContains par ref = .ok true := by
  induction parts with
  | nil => exact absurd rfl hne
  | cons p rest ih =>
    have hp := hbare p (List.mem_cons_self ..)
    cases rest with
    | nil =>
      refine ⟨.vDict [(p, v)], ?_, .vDict [(p, v)], p, ?_, ?_⟩
      · simp [buildParameterNodeTree, dictSet]
      · simp [resolveParts, parse_bareIdent p hp, pvalGetStr, dictGet?,
          applyAccessors, Except.bind, Bind.bind]
      · simp [pvalContains, dictGet?]
    | cons q rest' =>
      obtain ⟨tree, htree, par, ref, hres, hcont⟩ :=
        ih (by simp) (fun x hx => hbare x (List.mem_cons_of_mem _ hx))
      refine ⟨.vDict [(p, tree)], ?_, par, ref, ?_, hcont⟩
      · simp [buildParameterNodeTree, dictGet?, dictSet, htree, Except.map]
      · simp [resolveParts, parse_bareIdent p hp, pvalGetStr, dictGet?,
          applyAccessors, Except.bind, Bind.bind, hres]

/-- splitCharsOnDot never returns the empty list. -/
theorem splitCharsOnDot_ne_nil (l : List Char) : splitCharsOnDot l ≠ [] := by
  cases l with
  | nil => simp [splitCharsOnDot]
  | cons c rest =>
    by_cases hc : c = '.'
    · simp [splitCharsOnDot, hc]
    · have := splitCharsOnDot_ne_nil rest
      cases hs : splitCharsOnDot rest with
      | nil => exact absurd hs this
      | cons h t => simp [splitCharsOnDot, hc, hs]

/-- The first character of the input starts the first split segment. -/
theorem splitCharsOnDot_head_char (l : List Char) (c : Char) (h0 : List Char)
    (t : List (List Char)) (hs : splitCharsOnDot l = (c :: h0) :: t) :
    ∃ rest, l = c :: rest := by
  cases l with
  | nil =>
    simp [splitCharsOnDot] at hs
  | cons d rest =>
    by_cases hd : d = '.'
    · rw [show splitCharsOnDot (d :: rest) = [] :: splitCharsOnDot rest by
        simp [splitCharsOnDot, hd]] at hs
      exact absurd (List.cons.inj hs).1.symm (by simp)
    · refine ⟨rest, ?_⟩
      cases hr : splitCharsOnDot rest with
      | nil => exact absurd hr (splitCharsOnDot_ne_nil rest)
      | cons h' t' =>
        rw [show splitCharsOnDot (d :: rest) = (d :: h') :: t' by
          simp [splitCharsOnDot, hd, hr]] at hs
        have hdc := (List.cons.inj (List.cons.inj hs).1).1
        rw [hdc]

/-- Claim C7 (amended): path construction and path resolution are
inverses for fully-qualified names every segment of which is a bare
identifier (no bracket accessors in the written name): writing
$parameter.a.b = v through build_parameter_container and reading the
same name through get_parameter_value_by_fully_qualified_parameter_name
returns v exactly.  (As stated over bracket-accessor segments the claim
fails: see the counterexample, where the write stores the raw segment
string as a key and the read then fails with a KeyError.) -/
theorem claimC7_roundtrip_bare_identifiers (name : String) (v : PVal)
    (did : String) (dkw : List (String × PVal))
    (variablesC : Option (List (String × PVal)))
    (hsig : pyStartsWith name "$" = true)
    (hhead : (pySplitDot ⟨name.data.drop 1⟩).head? = some "parameter")
    (hbare : ∀ p ∈ pySplitDot ⟨name.data.drop 1⟩, isBareIdent p = true) :
    ∃ c, buildParameterContainer [] [(name, v)] = .ok c ∧
      getParameterValueByFullyQualifiedParameterName name (some (did, dkw))
        variablesC [(did, c)] = .ok (some v) := by
  obtain ⟨tail, htail⟩ : ∃ tail, name.data = '$' :: tail := by
    cases hd : name.data with
    | nil =>
      rw [pyStartsWith, show "$".data = ['$'] from rfl, hd] at hsig
      simp [List.isPrefixOf] at hsig
    | cons c rest =>
      rw [pyStartsWith, show "$".data = ['$'] from rfl, hd] at hsig
      simp [List.isPrefixOf] at hsig
      exact ⟨rest, by rw [← hsig]⟩
  have hdrop : name.data.drop 1 = tail := by rw [htail]; rfl
  obtain ⟨l0, t0, hsplit⟩ : ∃ l0 t0, splitCharsOnDot tail = l0 :: t0 := by
    cases hs : splitCharsOnDot tail with
    | nil => exact absurd hs (splitCharsOnDot_ne_nil tail)
    | cons a b => exact ⟨a, b, rfl⟩
  have hl0 : (⟨l0⟩ : String) = "parameter" := by
    rw [pySplitDot, hdrop, hsplit] at hhead
    simpa using hhead
  have hl0' : l0 = "parameter".data := by
    have := congrArg String.data hl0
    simpa using this
  have hpchar : ∃ rest, tail = 'p' :: rest := by
    apply splitCharsOnDot_head_char tail 'p' "arameter".data t0
    rw [hsplit, hl0']
  obtain ⟨rest, hrest⟩ := hpchar
  have hparts_ne : pySplitDot ⟨name.data.drop 1⟩ ≠ [] := by
    rw [pySplitDot, hdrop, hsplit]
    simp
  -- routing facts
  have hipc : ∀ (a b : Char) (as bs : List Char),
      List.isPrefixOf (a :: as) (b :: bs) = ((a == b) && List.isPrefixOf as bs) :=
    fun a b as bs => rfl
  have hnd : ¬ (name = "$domain.domain_kwargs") := by
    intro hc
    rw [hc] at htail
    rw [show "$domain.domain_kwargs".data
        = '$' :: "domain.domain_kwargs".data from rfl] at htail
    have htl := (List.cons.inj htail).2
    rw [← htl] at hrest
    rw [show "domain.domain_kwargs".data
        = 'd' :: "omain.domain_kwargs".data from rfl] at hrest
    exact absurd (List.cons.inj hrest).1 (by decide)
  have hndp : pyStartsWith name "$domain.domain_kwargs" = false := by
    rw [pyStartsWith, htail, hrest,
      show "$domain.domain_kwargs".data
        = '$' :: 'd' :: "omain.domain_kwargs".data from rfl,
      hipc, hipc, show (('d' : Char) == 'p') = false from by decide]
    simp
  have hnv : pyStartsWith name "$variables" = false := by
    rw [pyStartsWith, htail, hrest,
      show "$variables".data = '$' :: 'v' :: "ariables".data from rfl,
      hipc, hipc, show (('v' : Char) == 'p') = false from by decide]
    simp
  -- the build
  have hbuild : ∃ tree,
      buildParameterNodeTree (.vDict []) (pySplitDot ⟨name.data.drop 1⟩) v
        = .ok tree ∧
      ∃ par ref, resolveParts tree (pySplitDot ⟨name.data.drop 1⟩)
          = .ok (v, par, ref) ∧ pvalContains par ref = .ok true :=
    buildResolve_aux _ v hparts_ne hbare
  obtain ⟨tree, htree, par, ref, hres, hcont⟩ := hbuild
  have hone : buildParameterContainerOne [] name v
      = .ok [("parameter", tree)] := by
    rw [buildParameterContainerOne, if_neg (by simp [hsig])]
    rw [pySplitDot, hdrop, hsplit] at htree ⊢
    simp only [List.map_cons, hl0]
    simp only [List.map_cons, hl0] at htree
    simp [dictGet?, htree, Except.map, dictSet]
  refine ⟨[("parameter", tree)], ?_, ?_⟩
  · simp [buildParameterContainer, hone]
  · have hroute : getParameterValueByFullyQualifiedParameterName name
        (some (did, dkw)) variablesC [(did, [("parameter", tree)])]
        = (if (pySplitDot ⟨name.data.drop 1⟩).length = 0 then .ok none
           else getParameterValueFromParameterContainer
             (pySplitDot ⟨name.data.drop 1⟩) [("parameter", tree)]) := by
      rw [getParameterValueByFullyQualifiedParameterName.eq_def,
        if_neg (by simp [hsig]), if_neg hnd, if_neg (by simp [hndp]),
        if_neg (by simp [hnv])]
      simp [dictGet?]
    rw [hroute, if_neg (by rw [List.length_eq_zero]; simpa using hparts_ne)]
    rw [getParameterValueFromParameterContainer.eq_def]
    rw [pySplitDot, hdrop, hsplit] at hres ⊢
    simp only [List.map_cons, hl0] at hres ⊢
    simp [dictGet?, hres, hcont]

/-- Counterexample to C7 as stated: writing the bracket-accessor path
$parameter.a.b[0]["c"] = 42 stores the raw string b[0]["c"] as a
dictionary key, and reading the same fully-qualified name parses the
brackets, looks up "b", and fails with a KeyError instead of returning
42. -/
theorem claimC7_counterexample :
    buildParameterContainer [] [("$parameter.a.b[0][\"c\"]", PVal.vInt 42)]
      = .ok [("parameter", .vDict [("parameter",
          .vDict [("a", .vDict [("b[0][\"c\"]", .vInt 42)])])])] ∧
    getParameterValueByFullyQualifiedParameterName "$parameter.a.b[0][\"c\"]"
      (some ("d1", [])) none
      [("d1", [("parameter", .vDict [("parameter",
          .vDict [("a", .vDict [("b[0][\"c\"]", .vInt 42)])])])])]
      = .error .keyError ∧
    (Except.error GEErr.keyError
      ≠ (.ok (some (.vInt 42)) : Except GEErr (Option PVal))) := by
  refine ⟨rfl, rfl, by simp⟩

/-- Witness for the amended C7 at the concrete name $parameter.a.b. -/
theorem claimC7_witness :
    buildParameterContainer [] [("$parameter.a.b", PVal.vInt 42)]
      = .ok [("parameter", .vDict [("parameter",
          .vDict [("a", .vDict [("b", .vInt 42)])])])] ∧
    getParameterValueByFullyQualifiedParameterName "$parameter.a.b"
      (some ("d1", [])) none
      [("d1", [("parameter", .vDict [("parameter",
          .vDict [("a", .vDict [("b", .vInt 42)])])])])]
      = .ok (some (.vInt 42)) := by
  obtain ⟨c, hc, hread⟩ := claimC7_roundtrip_bare_identifiers "$parameter.a.b"
    (.vInt 42) "d1" [] none (by decide) rfl (by decide)
  have hck : c = [("parameter", .vDict [("parameter",
      .vDict [("a", .vDict [("b", .vInt 42)])])])] := by
    have hbuild : buildParameterContainer [] [("$parameter.a.b", PVal.vInt 42)]
        = .ok [("parameter", .vDict [("parameter",
            .vDict [("a", .vDict [("b", .vInt 42)])])])] := rfl
    rw [hbuild] at hc
    exact (Except.ok.inj hc).symm
  subst hck
  exact ⟨hc, hread⟩

/-!
### Enumeration lemmas (claim C8)
-/

theorem dictSet_ne_nil {β : Type} (d : List (String × β)) (k : String) (v : β) :
    dictSet d k v ≠ [] := by
  cases d with
  | nil => simp [dictSet]
  | cons p t =>
    by_cases hp : p.1 = k <;> simp [dictSet, hp]

theorem foldl_dictSet_ne_nil (ls : List (String × PVal))
    (configs : List (String × PVal)) (h : ls ≠ []) :
    configs.foldl (fun d p => dictSet d p.1 p.2) ls ≠ [] := by
  induction configs generalizing ls with
  | nil => exact h
  | cons c rest ih =>
    simp only [List.foldl_cons]
    exact ih _ (dictSet_ne_nil _ _ _)

theorem all_values_dictSet (P : PVal → Prop) (d : List (String × PVal))
    (k : String) (v : PVal) (hd : ∀ p ∈ d, P p.2) (hv : P v) :
    ∀ p ∈ dictSet d k v, P p.2 := by
  induction d with
  | nil =>
    intro p hp
    simp [dictSet] at hp
    rw [hp]
    exact hv
  | cons q t ih =>
    intro p hp
    by_cases hq : q.1 = k
    · rw [show dictSet (q :: t) k v = (k, v) :: t by simp [dictSet, hq]] at hp
      rcases List.mem_cons.mp hp with rfl | hmem
      · exact hv
      · exact hd p (List.mem_cons_of_mem _ hmem)
    · rw [show dictSet (q :: t) k v = q :: dictSet t k v by simp [dictSet, hq]] at hp
      rcases List.mem_cons.mp hp with rfl | hmem
      · exact hd p (List.mem_cons_self ..)
      · exact ih (fun x hx => hd x (List.mem_cons_of_mem _ hx)) p hmem

theorem foldl_dictSet_values (configs ls : List (String × PVal))
    (hls : ∀ p ∈ ls, p.2.isDict = false)
    (hcfg : ∀ p ∈ configs, p.2.isDict = false) :
    ∀ p ∈ configs.foldl (fun d p => dictSet d p.1 p.2) ls, p.2.isDict = false := by
  induction configs generalizing ls with
  | nil => exact hls
  | cons c rest ih =>
    simp only [List.foldl_cons]
    exact ih _
      (all_values_dictSet (fun v => v.isDict = false) ls c.1 c.2 hls
        (hcfg c (List.mem_cons_self ..)))
      (fun x hx => hcfg x (List.mem_cons_of_mem _ hx))

theorem splitCharsOnDot_nodot (xs : List Char) (h : ∀ c ∈ xs, ¬ c = '.') :
    splitCharsOnDot xs = [xs] := by
  induction xs with
  | nil => rfl
  | cons c rest ih =>
    have hc := h c (List.mem_cons_self ..)
    have ih' := ih (fun d hd => h d (List.mem_cons_of_mem _ hd))
    simp [splitCharsOnDot, hc, ih']

theorem splitCharsOnDot_append_dot (xs ys : List Char)
    (h : ∀ c ∈ xs, ¬ c = '.') :
    splitCharsOnDot (xs ++ '.' :: ys) = xs :: splitCharsOnDot ys := by
  induction xs with
  | nil =>
    simp [splitCharsOnDot]
  | cons c rest ih =>
    have hc := h c (List.mem_cons_self ..)
    have ih' := ih (fun d hd => h d (List.mem_cons_of_mem _ hd))
    simp [splitCharsOnDot, hc, ih']

theorem bareIdent_chars (k : String) (h : isBareIdent k = true) :
    ∀ c ∈ k.data, ¬ c = '.' := by
  cases hk : k.data with
  | nil => simp
  | cons c cs =>
    rw [isBareIdent, hk] at h
    simp only [Bool.and_eq_true, List.all_eq_true] at h
    intro d hd hdot
    rcases List.mem_cons.mp hd with rfl | hmem
    · rw [hdot] at h
      exact absurd h.1 (by decide)
    · have := h.2 d hmem
      rw [hdot] at this
      exact absurd this (by decide)

theorem splitDollarVariables (k : String) (hk : isBareIdent k = true) :
    pySplitDot ⟨("$variables." ++ k).data.drop 1⟩ = ["variables", k] := by
  have hdata : ("$variables." ++ k).data
      = '$' :: ("variables".data ++ '.' :: k.data) := by
    cases k with
    | mk kd => rfl
  rw [pySplitDot]
  rw [hdata]
  simp only [List.drop_succ_cons, List.drop_zero]
  rw [splitCharsOnDot_append_dot _ _ (by decide),
    splitCharsOnDot_nodot k.data (bareIdent_chars k hk)]
  simp only [List.map_cons, List.map_nil]

/-- One build step of a "$variables."-prefixed key into the already
shaped variables container. -/
theorem buildVariablesStep (ls : List (String × PVal)) (k : String) (v : PVal)
    (hk : isBareIdent k = true) :
    buildParameterContainerOne
        [("variables", .vDict [("variables", .vDict ls)])]
        ("$variables." ++ k) v
      = .ok [("variables", .vDict [("variables", .vDict (dictSet ls k v))])] := by
  have hsw : pyStartsWith ("$variables." ++ k) "$" = true := by
    rw [pyStartsWith, show ("$variables." ++ k).data
      = '$' :: ("variables".data ++ '.' :: k.data) from by cases k with | mk kd => rfl]
    rfl
  rw [buildParameterContainerOne]
  rw [if_neg (by simp [hsw])]
  rw [splitDollarVariables k hk]
  simp [dictGet?, buildParameterNodeTree, dictSet, Except.map]

/-- Same step from the empty container (the first iteration). -/
theorem buildVariablesStep0 (k : String) (v : PVal)
    (hk : isBareIdent k = true) :
    buildParameterContainerOne [] ("$variables." ++ k) v
      = .ok [("variables", .vDict [("variables", .vDict [(k, v)])])] := by
  have hsw : pyStartsWith ("$variables." ++ k) "$" = true := by
    rw [pyStartsWith, show ("$variables." ++ k).data
      = '$' :: ("variables".data ++ '.' :: k.data) from by cases k with | mk kd => rfl]
    rfl
  rw [buildParameterContainerOne]
  rw [if_neg (by simp [hsw])]
  rw [splitDollarVariables k hk]
  simp [dictGet?, buildParameterNodeTree, dictSet, Except.map]

theorem buildVariablesFlat (configs ls : List (String × PVal))
    (hbare : ∀ p ∈ configs, isBareIdent p.1 = true) :
    buildParameterContainer [("variables", .vDict [("variables", .vDict ls)])]
        (configs.map (fun p => ("$variables." ++ p.1, p.2)))
      = .ok [("variables", .vDict [("variables",
          .vDict (configs.foldl (fun d p => dictSet d p.1 p.2) ls))])] := by
  induction configs generalizing ls with
  | nil => rfl
  | cons c rest ih =>
    simp only [List.map_cons, List.foldl_cons]
    rw [buildParameterContainer,
      buildVariablesStep ls c.1 c.2 (hbare c (List.mem_cons_self ..))]
    exact ih _ (fun x hx => hbare x (List.mem_cons_of_mem _ hx))

theorem collectEntriesNames_flat (pre : List String)
    (entries : List (String × PVal))
    (h : ∀ p ∈ entries, p.2.isDict = false) :
    collectEntriesNames pre entries = entries.map (fun p => pre ++ [p.1]) := by
  induction entries with
  | nil => simp [collectEntriesNames]
  | cons p rest ih =>
    have hp := h p (List.mem_cons_self ..)
    have ih' := ih (fun x hx => h x (List.mem_cons_of_mem _ hx))
    obtain ⟨k, v⟩ := p
    cases v with
    | vDict es => exact absurd hp (by simp [PVal.isDict])
    | vNone => simp [collectEntriesNames, ih']
    | vBool b => simp [collectEntriesNames, ih']
    | vInt n => simp [collectEntriesNames, ih']
    | vStr s => simp [collectEntriesNames, ih']
    | vList xs => simp [collectEntriesNames, ih']

theorem dedupAux_of_seen (seen : List String) (l : List String)
    (h : ∀ x ∈ l, x ∈ seen) : dedupAux seen l = [] := by
  induction l with
  | nil => rfl
  | cons s rest ih =>
    have hs : seen.contains s = true :=
      List.contains_iff_exists_mem_beq.mpr ⟨s, h s (List.mem_cons_self ..), by simp⟩
    simp only [dedupAux, hs, if_true]
    exact ih (fun x hx => h x (List.mem_cons_of_mem _ hx))

theorem dedupStrings_const {α : Type} (l : List α) (a : String) (hl : l ≠ []) :
    dedupStrings (l.map (fun _ => a)) = [a] := by
  cases l with
  | nil => exact absurd rfl hl
  | cons x rest =>
    simp only [List.map_cons, dedupStrings, dedupAux, List.contains,
      List.elem_nil, if_false]
    rw [if_neg (by simp)]
    rw [dedupAux_of_seen _ _ (by intro y hy; simp at hy; simp [hy])]

/-- The full enumeration of a flat variables container reports exactly
the bare marker. -/
theorem enumVariablesFlat (reservedOrder : List String)
    (dom : Option (String × List (String × PVal)))
    (leaves : List (String × PVal)) (hne : leaves ≠ [])
    (hflat : ∀ p ∈ leaves, p.2.isDict = false) :
    getFullyQualifiedParameterNames reservedOrder dom
        (some [("variables", .vDict [("variables", .vDict leaves)])]) none
      = .ok ["$variables"] := by
  rw [getFullyQualifiedParameterNames]
  have hnames : getParameterNodeAttributeNames reservedOrder "variables"
      (.vDict [("variables", .vDict leaves)]) = ["$variables"] := by
    rw [getParameterNodeAttributeNames, collectNodeNames]
    rw [show collectEntriesNames ["variables"] [("variables", .vDict leaves)]
        = collectEntriesNames ["variables", "variables"] leaves ++ [] by
      simp [collectEntriesNames]]
    rw [List.append_nil, collectEntriesNames_flat _ _ hflat, List.map_map]
    have hconst : leaves.map
        ((fun l => "$" ++ joinDots
          ((partsUpToIncludingReservedLiteral reservedOrder l).drop 1))
          ∘ (fun p => ["variables", "variables"] ++ [p.1]))
        = leaves.map (fun _ => "$variables") := by
      apply List.map_congr_left
      intro p hp
      simp only [Function.comp]
      rw [show partsUpToIncludingReservedLiteral reservedOrder
          (["variables", "variables"] ++ [p.1])
          = ["variables", "variables"] by
        simp [partsUpToIncludingReservedLiteral]]
      rfl
    rw [hconst, dedupStrings_const _ _ hne]
  simp [dictGet?, hnames, Bind.bind, Except.bind, pure, Except.pure,
    sortedDescending, insertDescending]

theorem pyListIndex_none_of_not_mem (x : String) (l : List String)
    (h : ¬ x ∈ l) : pyListIndex x l = none := by
  induction l with
  | nil => rfl
  | cons y rest ih =>
    have hy : ¬ y = x := by
      intro hc
      exact h (by rw [← hc]; exact List.mem_cons_self ..)
    simp only [pyListIndex, hy, if_false]
    rw [ih (fun hc => h (List.mem_cons_of_mem _ hc))]
    rfl

theorem mem_of_pyListIndex_some (x : String) (l : List String) (i : Nat)
    (h : pyListIndex x l = some i) : x ∈ l := by
  induction l generalizing i with
  | nil => simp [pyListIndex] at h
  | cons y rest ih =>
    by_cases hy : y = x
    · rw [hy]
      exact List.mem_cons_self ..
    · simp only [pyListIndex, hy, if_false] at h
      cases hr : pyListIndex x rest with
      | none => rw [hr] at h; simp at h
      | some j => exact List.mem_cons_of_mem _ (ih j hr)

theorem findFirstReservedIdx_only (order parts : List String) (r : String)
    (i : Nat) (horder : ∀ k ∈ order, k ∈ RESERVED_TERMINAL_LITERALS)
    (hr : r ∈ order)
    (honly : ∀ r', r' ∈ RESERVED_TERMINAL_LITERALS → r' ≠ r → ¬ r' ∈ parts)
    (hidx : pyListIndex r parts = some i) :
    findFirstReservedIdx order parts = some i := by
  induction order with
  | nil => simp at hr
  | cons k ks ih =>
    by_cases hk : k = r
    · rw [hk]
      simp [findFirstReservedIdx, hidx]
    · have hkmem := horder k (List.mem_cons_self ..)
      have hknot : ¬ k ∈ parts := honly k hkmem hk
      simp only [findFirstReservedIdx, pyListIndex_none_of_not_mem k parts hknot]
      exact ih (fun x hx => horder x (List.mem_cons_of_mem _ hx))
        (by rcases List.mem_cons.mp hr with rfl | hmem
            · exact absurd rfl hk
            · exact hmem)

/-- Claim C8 (amended): over the variables namespace the enumeration of
fully-qualified parameter names reports exactly one name, the bare
marker "$variables" (not "$variables.variables"), for every nonempty
variables configuration with identifier keys and non-mapping values; and
over the parameter namespace, when exactly one reserved terminal literal
occurs among a name's parts, the name-part list is truncated at the
first occurrence of that literal (parts[:idx], the literal itself
excluded), for any iteration order of the reserved-literal set. -/
theorem claimC8_variables_marker_and_truncation :
    (∀ (reservedOrder : List String)
       (dom : Option (String × List (String × PVal)))
       (configs : List (String × PVal)),
      configs ≠ [] →
      (∀ p ∈ configs, isBareIdent p.1 = true) →
      (∀ p ∈ configs, p.2.isDict = false) →
      ∃ c, buildParameterContainerForVariables configs = .ok c ∧
        getFullyQualifiedParameterNames reservedOrder dom (some c) none
          = .ok ["$variables"]) ∧
    (∀ (reservedOrder : List String),
      reservedOrder.Perm RESERVED_TERMINAL_LITERALS →
      ∀ (parts : List String) (h0 : String) (t0 : List String),
        parts = h0 :: t0 → h0 ≠ "variables" →
      ∀ (r : String) (i : Nat), r ∈ RESERVED_TERMINAL_LITERALS →
        pyListIndex r parts = some i →
        (∀ r', r' ∈ RESERVED_TERMINAL_LITERALS → r' ≠ r → ¬ r' ∈ parts) →
        partsUpToIncludingReservedLiteral reservedOrder parts = parts.take i) := by
  constructor
  · intro reservedOrder dom configs hne hbare hflat
    cases configs with
    | nil => exact absurd rfl hne
    | cons c rest =>
      have hstep0 := buildVariablesStep0 c.1 c.2 (hbare c (List.mem_cons_self ..))
      have hflatrest : ∀ p ∈ rest, p.2.isDict = false :=
        fun x hx => hflat x (List.mem_cons_of_mem _ hx)
      have hbarerest : ∀ p ∈ rest, isBareIdent p.1 = true :=
        fun x hx => hbare x (List.mem_cons_of_mem _ hx)
      refine ⟨[("variables", .vDict [("variables",
        .vDict (rest.foldl (fun d p => dictSet d p.1 p.2) [(c.1, c.2)]))])],
        ?_, ?_⟩
      · rw [buildParameterContainerForVariables, List.map_cons,
          buildParameterContainer, hstep0]
        exact buildVariablesFlat rest [(c.1, c.2)] hbarerest
      · apply enumVariablesFlat
        · exact foldl_dictSet_ne_nil _ _ (by simp)
        · apply foldl_dictSet_values
          · intro p hp
            simp at hp
            rw [hp]
            exact hflat c (List.mem_cons_self ..)
          · exact hflatrest
  · intro reservedOrder hperm parts h0 t0 hparts hh0 r i hres hidx honly
    have hrmem : r ∈ parts := mem_of_pyListIndex_some r parts i hidx
    have hcontains : RESERVED_TERMINAL_LITERALS.contains r = true :=
      List.contains_iff_exists_mem_beq.mpr ⟨r, hres, by simp⟩
    rw [hparts] at hidx honly hrmem ⊢
    rw [partsUpToIncludingReservedLiteral]
    rw [if_neg hh0]
    rw [if_neg (by
      intro hall
      have := (List.all_eq_true.mp hall) r hrmem
      rw [hcontains] at this
      simp at this)]
    rw [findFirstReservedIdx_only reservedOrder (h0 :: t0) r i
      (fun k hk => (hperm.mem_iff).mp hk) ((hperm.mem_iff).mpr hres)
      honly hidx]

/-- Counterexample to C8 as stated: the enumeration over a variables
container built from one config reports ["$variables"], not the
"$variables.variables" marker the claim names. -/
theorem claimC8_counterexample :
    buildParameterContainerForVariables [("x", PVal.vInt 1)]
      = .ok [("variables", .vDict [("variables", .vDict [("x", .vInt 1)])])] ∧
    getFullyQualifiedParameterNames ["value", "attributed_value", "details"]
      none (some [("variables", .vDict [("variables", .vDict [("x", .vInt 1)])])])
      none
      = .ok ["$variables"] ∧
    (["$variables"] ≠ ["$variables.variables"]) := by
  refine ⟨rfl, ?_, by decide⟩
  simp [getFullyQualifiedParameterNames, getParameterNodeAttributeNames,
    collectNodeNames, collectEntriesNames, partsUpToIncludingReservedLiteral,
    dedupStrings, dedupAux, joinDots, sortedDescending, insertDescending,
    dictGet?, RESERVED_TERMINAL_LITERALS, pure, Except.pure, Bind.bind,
    Except.bind]

/-- Witness for the amended C8: one concrete variables config enumerates
to ["$variables"], and one concrete reserved-literal truncation cuts
["parameter", "a", "value"] to ["parameter", "a"]. -/
theorem claimC8_witness :
    getFullyQualifiedParameterNames ["details", "value", "attributed_value"]
      none (some [("variables", .vDict [("variables", .vDict [("x", .vInt 1)])])])
      none
      = .ok ["$variables"] ∧
    partsUpToIncludingReservedLiteral ["details", "value", "attributed_value"]
      ["parameter", "a", "value"] = ["parameter", "a"] := by
  constructor
  · obtain ⟨c, hc, henum⟩ :=
      claimC8_variables_marker_and_truncation.1
        ["details", "value", "attributed_value"] none [("x", .vInt 1)]
        (by simp) (by intro p hp; simp at hp; rw [hp]; rfl)
        (by intro p hp; simp at hp; rw [hp]; rfl)
    have hck : c = [("variables", .vDict [("variables",
        .vDict [("x", .vInt 1)])])] := by
      have hb : buildParameterContainerForVariables [("x", PVal.vInt 1)]
          = .ok [("variables", .vDict [("variables", .vDict [("x", .vInt 1)])])] :=
        rfl
      rw [hb] at hc
      exact (Except.ok.inj hc).symm
    rw [← hck]
    exact henum
  · have := claimC8_variables_marker_and_truncation.2
      ["details", "value", "attributed_value"] (by decide)
      ["parameter", "a", "value"] "parameter" ["a", "value"] rfl (by decide)
      "value" 2 (by decide) rfl (by decide)
    simpa using this

end GE
